import Mathlib

/-! Local mounter (snapshot/localmounter_windows.go)

A shallow embedding of `localMounter.Mount`, `mountWithRetries` and
`localMounter.Unmount`.  The Go methods mutate the receiver and talk to the
operating system; here every function takes the receiver and a `World` and
returns the new receiver and the new `World`.  What an external call answers
is fixed by an `Env`: the answer to the k-th call of an operation is the value
of the matching `Env` field at `k` (counted from 0).  Every external call is
appended to `World.trace`, so "how often was X called" is a count over the
trace.  The instance lock serialises the calls; the embedding is sequential.
-/

namespace Snapshot

/-! ## Errors -/

/-- Go error values, as far as the mounter looks at them: the sentinel
`cerrdefs.ErrNotImplemented`, a `windows.Errno` (number and system message),
any other error given by its message, and `errors.Wrap`/`errors.Wrapf`. -/
inductive Err where
  | errNotImplemented : Err
  | errno (code : Nat) (msg : String) : Err
  | text (msg : String) : Err
  | wrap (cause : Err) (msg : String) : Err
deriving DecidableEq, Repr

/-- The `Error()` string; a wrapped error prints as `msg: cause`. -/
def Err.Error : Err → String
  | .errNotImplemented => "not implemented"
  | .errno _ msg => msg
  | .text msg => msg
  | .wrap cause msg => msg ++ ": " ++ cause.Error

/-- The constant `windows.ERROR_INVALID_PARAMETER` (87). -/
def ERROR_INVALID_PARAMETER : Nat := 87

/-- The constant `windows.ERROR_NOT_FOUND` (1168). -/
def ERROR_NOT_FOUND : Nat := 1168

/-- The test `errors.Is(err, windows.Errno(code))`, by unwrapping. -/
def Err.IsErrno : Err → Nat → Bool
  | .wrap cause _, code => cause.IsErrno code
  | .errno c _, code => c == code
  | _, _ => false

/-! ## Mount descriptors -/

/-- The struct `mount.Mount` of containerd (`Type_` is its field `Type`). -/
structure Mount where
  Type_ : String
  Source : String
  Target : String
  Options : List String
deriving DecidableEq, Repr

/-- The method `(*Mount).ReadOnly`: some option is `ro`. -/
def Mount.ReadOnly (m : Mount) : Bool :=
  m.Options.any (fun option => option == "ro")

/-- The `%v` rendering of a `mount.Mount`. -/
def Mount.format (m : Mount) : String :=
  "\x7b" ++ m.Type_ ++ " " ++ m.Source ++ " " ++ m.Target ++ " [" ++
    " ".intercalate m.Options ++ "]\x7d"

/-! ## The outside world -/

/-- The external operations the mounter calls. -/
inductive Op where
  | resolve | mkdirTemp | applyFileBinding | removeFileBinding
  | nativeMount | nativeUnmount | removeAll | sleep | release
deriving DecidableEq, Repr

/-- One external call, with its arguments.
* `resolve`: `lm.mountable.Mount()`
* `mkdirTemp`: `os.MkdirTemp("", "buildkit-mount")`
* `applyFileBinding dir src ro`: `bindfilter.ApplyFileBinding(dir, src, ro)`
* `removeFileBinding t`: `bindfilter.RemoveFileBinding(t)`
* `nativeMount m dir`: `m.Mount(dir)`
* `nativeUnmount t`: `mount.Unmount(t, 0)`
* `removeAll t`: `os.RemoveAll(t)`
* `sleep d`: `time.Sleep(d)`, `d` in nanoseconds
* `release id`: a call of the release function with identity `id` -/
inductive Event where
  | resolve : Event
  | mkdirTemp : Event
  | applyFileBinding (dir src : String) (ro : Bool) : Event
  | removeFileBinding (target : String) : Event
  | nativeMount (m : Mount) (dir : String) : Event
  | nativeUnmount (target : String) : Event
  | removeAll (target : String) : Event
  | sleep (d : Int) : Event
  | release (id : Nat) : Event
deriving DecidableEq, Repr

/-- The operation an event is a call of. -/
def Event.op : Event → Op
  | .resolve => .resolve
  | .mkdirTemp => .mkdirTemp
  | .applyFileBinding _ _ _ => .applyFileBinding
  | .removeFileBinding _ => .removeFileBinding
  | .nativeMount _ _ => .nativeMount
  | .nativeUnmount _ => .nativeUnmount
  | .removeAll _ => .removeAll
  | .sleep _ => .sleep
  | .release _ => .release

/-- The state outside the mounter: the directories that exist, the bindings
of the bind filter as (target, source, read-only), the targets of native
mounts, and every external call made so far, oldest first. -/
structure World where
  dirs : List String
  bindings : List (String × String × Bool)
  mounted : List String
  trace : List Event
deriving DecidableEq, Repr

/-- Number of calls of `op` made so far. -/
def World.calls (w : World) (op : Op) : Nat :=
  (w.trace.map Event.op).count op

/-- Record one external call. -/
def World.emit (w : World) (e : Event) : World :=
  { w with trace := w.trace ++ [e] }

/-- What `lm.mountable.Mount()` returns when it does not fail: the slice of
mounts (`none` is the nil slice) and the release function (`none` is nil,
`some id` a function with identity `id`). -/
structure Resolved where
  mounts : Option (List Mount)
  release : Option Nat
deriving DecidableEq, Repr

/-- The answers of the external operations: field `f k` is what the k-th call
of operation `f` returns (`none` is a nil error). -/
structure Env where
  mountableMount : Nat → Except Err Resolved
  mkdirTemp : Nat → Except Err String
  applyFileBinding : Nat → Option Err
  removeFileBinding : Nat → Option Err
  mountMount : Nat → Option Err
  mountUnmount : Nat → Option Err
  removeAll : Nat → Option Err
  release : Nat → Option Err

/-- The call `lm.mountable.Mount()`. -/
def callMountable (env : Env) (w : World) : Except Err Resolved × World :=
  (env.mountableMount (w.calls .resolve), w.emit .resolve)

/-- The call `os.MkdirTemp("", "buildkit-mount")`: on success it returns the
non-empty path of a directory that did not exist before and exists now; an
empty name or a name that exists is never handed out. -/
def osMkdirTemp (env : Env) (w : World) : Except Err String × World :=
  match env.mkdirTemp (w.calls .mkdirTemp) with
  | .ok d =>
    if d = "" ∨ d ∈ w.dirs then (.error (.text "mkdirtemp: file exists"), w.emit .mkdirTemp)
    else (.ok d, { w.emit .mkdirTemp with dirs := d :: w.dirs })
  | .error e => (.error e, w.emit .mkdirTemp)

/-- The call `bindfilter.ApplyFileBinding(dir, src, ro)`. -/
def bindfilterApplyFileBinding (env : Env) (dir src : String) (ro : Bool) (w : World) :
    Option Err × World :=
  match env.applyFileBinding (w.calls .applyFileBinding) with
  | none => (none, { w.emit (.applyFileBinding dir src ro) with
                     bindings := (dir, src, ro) :: w.bindings })
  | some e => (some e, w.emit (.applyFileBinding dir src ro))

/-- The call `bindfilter.RemoveFileBinding(target)`. -/
def bindfilterRemoveFileBinding (env : Env) (target : String) (w : World) :
    Option Err × World :=
  match env.removeFileBinding (w.calls .removeFileBinding) with
  | none => (none, { w.emit (.removeFileBinding target) with
                     bindings := w.bindings.filter (fun b => b.1 ≠ target) })
  | some e => (some e, w.emit (.removeFileBinding target))

/-- The call `m.Mount(dir)`. -/
def mountMount (env : Env) (m : Mount) (dir : String) (w : World) : Option Err × World :=
  match env.mountMount (w.calls .nativeMount) with
  | none => (none, { w.emit (.nativeMount m dir) with mounted := dir :: w.mounted })
  | some e => (some e, w.emit (.nativeMount m dir))

/-- The call `mount.Unmount(target, 0)`. -/
def mountUnmount (env : Env) (target : String) (w : World) : Option Err × World :=
  match env.mountUnmount (w.calls .nativeUnmount) with
  | none => (none, { w.emit (.nativeUnmount target) with
                     mounted := w.mounted.filter (fun t => t ≠ target) })
  | some e => (some e, w.emit (.nativeUnmount target))

/-- The call `os.RemoveAll(target)`.  The caller drops its error (line 119), so
only the world after the call is given: the directory is gone when the call
returns nil and is still there when it returns an error. -/
def osRemoveAll (env : Env) (target : String) (w : World) : World :=
  match env.removeAll (w.calls .removeAll) with
  | none => { w.emit (.removeAll target) with dirs := w.dirs.filter (fun d => d ≠ target) }
  | some _ => w.emit (.removeAll target)

/-- The call `time.Sleep(d)`. -/
def timeSleep (d : Int) (w : World) : World :=
  w.emit (.sleep d)

/-- A call `lm.release()` of the release function `id`. -/
def callRelease (env : Env) (id : Nat) (w : World) : Option Err × World :=
  (env.release (w.calls .release), w.emit (.release id))

/-! ## mountWithRetries (lines 67-86) -/

/-- The function `strings.Contains` on lists of characters. -/
def containsChars : List Char → List Char → Bool
  | [], sub => sub.isEmpty
  | c :: s, sub => sub.isPrefixOf (c :: s) || containsChars s sub

/-- The function `strings.Contains`. -/
def stringsContains (s substr : String) : Bool :=
  containsChars s.toList substr.toList

/-- Two-complement wrap of a 64-bit signed integer (Go `int`, `time.Duration`). -/
def wrapInt64 (x : Int) : Int :=
  (x + 2 ^ 63) % 2 ^ 64 - 2 ^ 63

/-- The local `errStr` of `mountWithRetries`. -/
def errStr : String :=
  "cannot access the file because it is being used by another process"

/-- The local `backoff`: `30 * time.Millisecond`, in nanoseconds. -/
def backoff : Int := 30 * 1000000

/-- The loop `for i := range retries + 1` from iteration `i` on, with `left`
iterations to go and `err` the value of the variable `err`. -/
def mountLoop (env : Env) (m : Mount) (dir : String) (retries : Int) :
    Nat → Int → Option Err → World → Option Err × World
  | 0, _, err, w => (err, w)
  | left + 1, i, _, w =>
    match mountMount env m dir w with
    | (none, w1) => (none, w1)
    | (some e, w1) =>
      if i = retries then (some e, w1)
      else if stringsContains e.Error errStr then
        mountLoop env m dir retries left (i + 1) (some e)
          (timeSleep (wrapInt64 (wrapInt64 (i + 1) * backoff)) w1)
      else (some e, w1)

/-- The function `mountWithRetries(m, dir, retries)`. -/
def mountWithRetries (env : Env) (m : Mount) (dir : String) (retries : Int) (w : World) :
    Option Err × World :=
  mountLoop env m dir retries (wrapInt64 (retries + 1)).toNat 0 none w

/-! ## The local mounter -/

/-- The struct `localMounter`: `mounts` (`none` is the nil slice), whether
`mountable` is non-nil, `target`, and `release` (`none` is nil).  The mutex
`mu` has no counterpart in a sequential embedding. -/
structure localMounter where
  mounts : Option (List Mount)
  mountable : Bool
  target : String
  release : Option Nat
deriving DecidableEq, Repr

/-- The value of `len(lm.mounts)`. -/
def localMounter.len (lm : localMounter) : Nat :=
  (lm.mounts.getD []).length

/-- What `Mount` returns, with the receiver and the world after the call. -/
structure MountResult where
  path : String
  err : Option Err
  lm : localMounter
  world : World
deriving DecidableEq, Repr

/-- What `Unmount` returns, with the receiver and the world after the call. -/
structure UnmountResult where
  err : Option Err
  lm : localMounter
  world : World
deriving DecidableEq, Repr

/-- The error `errors.Wrapf(cerrdefs.ErrNotImplemented, "request to mount %d
layers, only 1 is supported", n)`. -/
def errLayers (n : Nat) : Err :=
  .wrap .errNotImplemented
    ("request to mount " ++ toString n ++ " layers, only 1 is supported")

/-- Lines 28-64 of `Mount`: everything after the resolution block. -/
def localMounter.mountBody (env : Env) (lm : localMounter) (w : World) : MountResult :=
  match lm.mounts.getD [] with
  | [m] =>
    match osMkdirTemp env w with
    | (.error e, w1) => ⟨"", some (.wrap e "failed to create temp dir"), lm, w1⟩
    | (.ok dir, w1) =>
      if m.Type_ = "bind" ∨ m.Type_ = "rbind" then
        if !m.ReadOnly then ⟨m.Source, none, lm, w1⟩
        else
          match bindfilterApplyFileBinding env dir m.Source m.ReadOnly w1 with
          | (some e, w2) => ⟨"", some (.wrap e ("failed to mount " ++ m.format)), lm, w2⟩
          | (none, w2) => ⟨dir, none, { lm with target := dir }, w2⟩
      else
        match mountWithRetries env m dir 2 w1 with
        | (some e, w2) => ⟨"", some (.wrap e ("failed to mount " ++ m.format)), lm, w2⟩
        | (none, w2) => ⟨dir, none, { lm with target := dir }, w2⟩
  | ms => ⟨"", some (errLayers ms.length), lm, w⟩

/-- The method `(*localMounter).Mount` (lines 15-65). -/
def localMounter.Mount (env : Env) (lm : localMounter) (w : World) : MountResult :=
  if lm.mounts = none ∧ lm.mountable = true then
    match callMountable env w with
    | (.error e, w1) => ⟨"", some e, lm, w1⟩
    | (.ok r, w1) =>
      localMounter.mountBody env { lm with mounts := r.mounts, release := r.release } w1
  else localMounter.mountBody env lm w

/-- Lines 123-127 of `Unmount`: the release step. -/
def localMounter.releaseStep (env : Env) (lm : localMounter) (w : World) : UnmountResult :=
  match lm.release with
  | some id =>
    match callRelease env id w with
    | (err, w1) => ⟨err, lm, w1⟩
  | none => ⟨none, lm, w⟩

/-- The method `(*localMounter).Unmount` (lines 88-128).  The `%+v` of the
wrapped message is rendered by the `Error()` string. -/
def localMounter.Unmount (env : Env) (lm : localMounter) (w : World) : UnmountResult :=
  match lm.mounts.getD [] with
  | [m] =>
    if lm.target ≠ "" then
      if m.Type_ = "bind" ∨ m.Type_ = "rbind" then
        match bindfilterRemoveFileBinding env lm.target w with
        | (some e, w1) =>
          if !e.IsErrno ERROR_INVALID_PARAMETER && !e.IsErrno ERROR_NOT_FOUND then
            ⟨some (.wrap e ("failed to unmount " ++ lm.target ++ ": " ++ e.Error)), lm, w1⟩
          else
            localMounter.releaseStep env { lm with target := "" } (osRemoveAll env lm.target w1)
        | (none, w1) =>
          localMounter.releaseStep env { lm with target := "" } (osRemoveAll env lm.target w1)
      else
        match mountUnmount env lm.target w with
        | (some e, w1) =>
          ⟨some (.wrap e ("failed to unmount " ++ lm.target ++ ": " ++ e.Error)), lm, w1⟩
        | (none, w1) =>
          localMounter.releaseStep env { lm with target := "" } (osRemoveAll env lm.target w1)
    else localMounter.releaseStep env lm w
  | ms => ⟨some (errLayers ms.length), lm, w⟩

/-- The external calls of the resolution block of `Mount` (lines 19-26): one
call of the provider when `mounts` is nil and a provider is set, else none. -/
def localMounter.resolveEvents (lm : localMounter) : List Event :=
  if lm.mounts = none ∧ lm.mountable = true then [.resolve] else []

/-- The external calls of the release step of `Unmount` (lines 123-125). -/
def releaseEvents : Option Nat → List Event
  | some id => [.release id]
  | none => []

/-- The answer of the release step of `Unmount`: that of the release function
when one is recorded, success when none is. -/
def releaseResult (env : Env) (rel : Option Nat) (w : World) : Option Err :=
  match rel with
  | some _ => env.release (w.calls .release)
  | none => none

/-- A call of one of the two exposed operations. -/
inductive Call where
  | mount | unmount
deriving DecidableEq, Repr

/-- One call on the instance. -/
def step (env : Env) (c : Call) (s : localMounter × World) : localMounter × World :=
  match c with
  | .mount => ((s.1.Mount env s.2).lm, (s.1.Mount env s.2).world)
  | .unmount => ((s.1.Unmount env s.2).lm, (s.1.Unmount env s.2).world)

/-- A sequence of calls on the instance, first call first. -/
def run (env : Env) : List Call → localMounter × World → localMounter × World
  | [], s => s
  | c :: cs, s => run env cs (step env c s)

/-- A fresh instance built around a provider (`LocalMounter(mountable)`). -/
def fresh : localMounter :=
  { mounts := none, mountable := true, target := "", release := none }

/-- A world with nothing in it. -/
def World.empty : World :=
  { dirs := [], bindings := [], mounted := [], trace := [] }

/-! ## Sample inputs -/

/-- A writable bind descriptor. -/
def rwBind : Mount :=
  { Type_ := "bind", Source := "C:/snapshots/7/fs", Target := "", Options := [] }

/-- A read-only bind descriptor. -/
def roBind : Mount :=
  { Type_ := "rbind", Source := "C:/snapshots/7/fs", Target := "", Options := ["rbind", "ro"] }

/-- A descriptor of a native type. -/
def layer : Mount :=
  { Type_ := "windows-layer", Source := "C:/snapshots/8", Target := "",
    Options := ["rw"] }

/-- The system error for a file held by another process. -/
def sharingViolation : Err :=
  .errno 32 "The process cannot access the file because it is being used by another process."

/-- The system error for a wrong argument. -/
def accessDenied : Err :=
  .errno 5 "Access is denied."

/-- An environment in which the provider answers `r` and every other external
operation succeeds; the k-th temporary directory is named after `k`. -/
def calm (r : Except Err Resolved) : Env :=
  { mountableMount := fun _ => r
    mkdirTemp := fun k => .ok ("C:/tmp/buildkit-mount" ++ toString k)
    applyFileBinding := fun _ => none
    removeFileBinding := fun _ => none
    mountMount := fun _ => none
    mountUnmount := fun _ => none
    removeAll := fun _ => none
    release := fun _ => none }

/-- As `calm`, but the native mount answers the k-th call with `answers[k]`
(and succeeds once the list is used up). -/
def scripted (r : Except Err Resolved) (answers : List (Option Err)) : Env :=
  { calm r with mountMount := fun k => (answers.getD k none) }

/-- A provider of one writable bind descriptor; nothing fails. -/
def rwEnv : Env := calm (.ok ⟨some [rwBind], some 7⟩)

/-- A provider of one read-only bind descriptor; nothing fails. -/
def roEnv : Env := calm (.ok ⟨some [roBind], some 7⟩)

/-- A provider of one native descriptor whose mount finds the target busy
twice and then succeeds. -/
def busyEnv : Env :=
  scripted (.ok ⟨some [layer], some 7⟩) [some sharingViolation, some sharingViolation]

/-- A provider of one native descriptor whose mount is refused. -/
def deniedEnv : Env :=
  scripted (.ok ⟨some [layer], some 7⟩) [some accessDenied]

/-- A provider that fails. -/
def failingEnv : Env := calm (.error accessDenied)

/-- An instance that holds two descriptors. -/
def twoLayers : localMounter :=
  { mounts := some [roBind, layer], mountable := false, target := "", release := none }

/-- An instance built around one descriptor, without provider and without
release function (`LocalMounterWithMounts`). -/
def preset : localMounter :=
  { mounts := some [rwBind], mountable := false, target := "", release := none }

/-- An instance without provider and without descriptors. -/
def bare : localMounter :=
  { mounts := none, mountable := false, target := "", release := none }

/-- As `roEnv`, but `bindfilter.ApplyFileBinding` is refused. -/
def bindFailEnv : Env :=
  { roEnv with applyFileBinding := fun _ => some accessDenied }

/-- As `roEnv`, but the release function fails. -/
def releaseFailEnv : Env :=
  { roEnv with release := fun _ => some accessDenied }

/-- A provider of one native descriptor whose mount always finds the target
busy. -/
def alwaysBusyEnv : Env :=
  { calm (.ok ⟨some [layer], some 7⟩) with mountMount := fun _ => some sharingViolation }

/-- An instance that holds a read-only bind mounted on a temporary directory. -/
def boundRo : localMounter :=
  { mounts := some [roBind], mountable := true, target := "C:/tmp/buildkit-mount0",
    release := some 7 }

/-- The world in which `boundRo` lives. -/
def boundWorld : World :=
  { dirs := ["C:/tmp/buildkit-mount0"],
    bindings := [("C:/tmp/buildkit-mount0", "C:/snapshots/7/fs", true)],
    mounted := [],
    trace := [.resolve, .mkdirTemp,
      .applyFileBinding "C:/tmp/buildkit-mount0" "C:/snapshots/7/fs" true] }

/-- As `releaseFailEnv`, but `os.RemoveAll` fails as well. -/
def releaseFailStuckEnv : Env :=
  { releaseFailEnv with removeAll := fun _ => some accessDenied }

/-- A provider that answers with a nil slice and the release function 7. -/
def nilEnv : Env := calm (.ok ⟨none, some 7⟩)

/-- The external calls of lines 100-119 when the unbind or unmount goes
through: `RemoveFileBinding` for a bind, the native unmount for any other
type, then `os.RemoveAll`; none when `target` is empty. -/
def teardownEvents (m : Mount) (target : String) : List Event :=
  if target = "" then []
  else if m.Type_ = "bind" ∨ m.Type_ = "rbind" then
    [.removeFileBinding target, .removeAll target]
  else [.nativeUnmount target, .removeAll target]

/-! ## Measures on the trace of the retry loop -/

/-- The external calls of a run of the retry loop that starts at iteration `i`
and finds the target busy `r` times: `r + 1` attempts, each but the last
followed by the sleep of line 79. -/
def attemptsFrom (m : Mount) (dir : String) : Nat → Int → List Event
  | 0, _ => [.nativeMount m dir]
  | r + 1, i =>
    .nativeMount m dir :: .sleep (wrapInt64 (wrapInt64 (i + 1) * backoff)) ::
      attemptsFrom m dir r (i + 1)

/-- The durations of the sleeps of a trace, oldest first. -/
def sleepsOf : List Event → List Int
  | [] => []
  | .sleep d :: es => d :: sleepsOf es
  | _ :: es => sleepsOf es

/-- The time one external call spends sleeping: `time.Sleep(d)` returns at once
when `d` is zero or negative. -/
def sleepTime : Event → Int
  | .sleep d => max d 0
  | _ => 0

/-- The time spent sleeping over a trace, in nanoseconds. -/
def sleepTotal (tr : List Event) : Int :=
  (tr.map sleepTime).sum

end Snapshot

/-! Device flags of RUN (frontend/dockerfile/instructions/commands_rundevice.go)

A shallow embedding of `ParseDevice`.  The functions it calls in other
packages are the fields of a `Lib`; `strings.Cut` and `strconv.ParseBool` are
written out. -/

namespace Instructions

open Snapshot (Err)

/-- The struct `Device`. -/
structure Device where
  Name : String
  Required : Bool
deriving DecidableEq, Repr

/-- The functions of other packages that `ParseDevice` calls.
* `csvFields val`: `csvvalue.Fields(val, nil)`
* `parseQualifiedName s`: the error result of `parser.ParseQualifiedName(s)`
  (`none` is nil: `s` is a qualified name)
* `toLower`: `strings.ToLower`
* `suggestMatch val options caseSensitive`: the option that package
  `util/suggest` proposes for `val`, if it finds one -/
structure Lib where
  csvFields : String → Except Err (List String)
  parseQualifiedName : String → Option Err
  toLower : String → String
  suggestMatch : String → List String → Bool → Option String

/-- Modelled from the spec: `suggest.WrapError` of this repository (package
`util/suggest`) is not among the sources.  The spec has unknown keys fail with
a "did you mean" suggestion against the known key set: the call returns an
error, `err` with the suggestion added when one is found, `err` itself when
none is. -/
def suggestWrapError (lib : Lib) (err : Err) (val : String) (options : List String)
    (caseSensitive : Bool) : Err :=
  match lib.suggestMatch val options caseSensitive with
  | some hint => .wrap err ("did you mean " ++ hint ++ "?")
  | none => err

/-- The function `strings.Cut` on lists of characters, for a separator of one
character: the part before its first occurrence, the part after it, and
whether it occurs. -/
def cutChars (sep : Char) : List Char → List Char × List Char × Bool
  | [] => ([], [], false)
  | c :: cs =>
    if c = sep then ([], cs, true)
    else ((c :: (cutChars sep cs).1), (cutChars sep cs).2.1, (cutChars sep cs).2.2)

/-- The function `strings.Cut(s, sep)` for a separator of one character. -/
def stringsCut (s : String) (sep : Char) : String × String × Bool :=
  (String.mk (cutChars sep s.toList).1, String.mk (cutChars sep s.toList).2.1,
    (cutChars sep s.toList).2.2)

/-- The function `strconv.ParseBool`. -/
def strconvParseBool (str : String) : Except Err Bool :=
  if str ∈ ["1", "t", "T", "TRUE", "true", "True"] then .ok true
  else if str ∈ ["0", "f", "F", "FALSE", "false", "False"] then .ok false
  else .error (.text ("strconv.ParseBool: parsing " ++ str ++ ": invalid syntax"))

/-- The body of the loop of `ParseDevice` (lines 79-119) for the field at index
`i` of `n` fields: an error when the body returns, else the device the loop
goes on with. -/
def parseField (lib : Lib) (n i : Nat) (field : String) (d : Device) : Except Err Device :=
  let firstFieldErr : Option Err := if i = 0 then lib.parseQualifiedName field else none
  if i = 0 ∧ firstFieldErr = none then .ok { d with Name := field }
  else
    match stringsCut field '=' with
    | (key, value, ok) =>
      if !ok then
        match (if n = 1 then firstFieldErr else none) with
        | some err => .error (.wrap err ("invalid device name " ++ field))
        | none =>
          if lib.toLower key = "required" then .ok { d with Required := true }
          else
            .error (.text ("invalid field \x27" ++ field ++ "\x27 must be a key=value pair"))
      else if lib.toLower key = "name" then
        if d.Name ≠ "" then .error (.text ("device name already set to " ++ d.Name))
        else .ok { d with Name := value }
      else if lib.toLower key = "required" then
        match strconvParseBool value with
        | .ok b => .ok { d with Required := b }
        | .error _ =>
          .error (.text ("invalid value for " ++ lib.toLower key ++ ": " ++ value))
      else
        .error (suggestWrapError lib
          (.text ("unexpected key \x27" ++ lib.toLower key ++ "\x27 in \x27" ++ field ++ "\x27"))
          (lib.toLower key) ["name", "required"] true)

/-- The loop `for i, field := range fields` of `ParseDevice`, from index `i`
on. -/
def parseFields (lib : Lib) (n : Nat) : Nat → List String → Device → Except Err Device
  | _, [], d => .ok d
  | i, field :: rest, d =>
    match parseField lib n i field d with
    | .error err => .error err
    | .ok d1 => parseFields lib n (i + 1) rest d1

/-- The function `ParseDevice` (lines 70-127): the error, or the device. -/
def ParseDevice (lib : Lib) (val : String) : Except Err Device :=
  match lib.csvFields val with
  | .error err => .error (.wrap err "failed to parse csv devices")
  | .ok fields =>
    match parseFields lib fields.length 0 fields { Name := "", Required := false } with
    | .error err => .error err
    | .ok d =>
      match lib.parseQualifiedName d.Name with
      | some err => .error (.wrap err ("invalid device name " ++ d.Name))
      | none => .ok d

/-- The spec's reading of a field after the first: the bare token `required`
gives true, `required=<b>` gives the boolean `b`, keys compared after
lower-casing; any other field gives nothing. -/
def requiredField (lib : Lib) (f : String) : Option Bool :=
  match stringsCut f '=' with
  | (key, _, false) => if lib.toLower key = "required" then some true else none
  | (key, value, true) =>
    if lib.toLower key = "required" then
      match strconvParseBool value with
      | .ok b => some b
      | .error _ => none
    else none

/-- The spec's value of `Required`: that of the last required field, `b` when
there is none. -/
def lastRequired (lib : Lib) : List String → Bool → Bool
  | [], b => b
  | f :: fs, b => lastRequired lib fs ((requiredField lib f).getD b)

/-- The fields of a value without quotes: the parts between the commas. -/
def splitCommas : List Char → List Char → List String
  | [], cur => [String.mk cur.reverse]
  | c :: cs, cur =>
    if c = ',' then String.mk cur.reverse :: splitCommas cs []
    else splitCommas cs (c :: cur)

/-- A library for the sample inputs: values are split at commas, the two names
listed are the qualified names, letters are lowered as in ASCII, and no
suggestion is found. -/
def sampleLib : Lib :=
  { csvFields := fun s => .ok (splitCommas s.toList [])
    parseQualifiedName := fun s =>
      if s = "vendor.com/gpu=all" ∨ s = "vendor.com/gpu=0" then none
      else some (.text ("unqualified device " ++ s))
    toLower := fun s => String.mk (s.toList.map Char.toLower)
    suggestMatch := fun _ _ _ => none }

end Instructions

namespace Snapshot

/-! ## Auxiliary facts -/

theorem calls_emit (w : World) (e : Event) (op : Op) :
    (w.emit e).calls op = w.calls op + (if e.op = op then 1 else 0) := by
  simp [World.calls, World.emit, List.count_append, List.count_singleton]

theorem emit_nil_trace (w : World) :
    ({ w with trace := w.trace ++ [] } : World) = w := by
  cases w; simp

theorem mountBody_of_length_ne_one (env : Env) (lm : localMounter) (w : World)
    (h : lm.len ≠ 1) :
    lm.mountBody env w = ⟨"", some (errLayers lm.len), lm, w⟩ := by
  unfold localMounter.mountBody
  unfold localMounter.len at h ⊢
  split
  · next m hm => rw [hm] at h; simp at h
  · rfl

theorem Unmount_of_length_ne_one (env : Env) (lm : localMounter) (w : World)
    (h : lm.len ≠ 1) :
    lm.Unmount env w = ⟨some (errLayers lm.len), lm, w⟩ := by
  unfold localMounter.Unmount
  unfold localMounter.len at h ⊢
  split
  · next m hm => rw [hm] at h; simp at h
  · rfl

/-- The body of `Mount` writes no field but `target`. -/
theorem mountBody_fields (env : Env) (lm : localMounter) (w : World) :
    (lm.mountBody env w).lm.mounts = lm.mounts ∧
    (lm.mountBody env w).lm.mountable = lm.mountable ∧
    (lm.mountBody env w).lm.release = lm.release := by
  unfold localMounter.mountBody
  split
  · split
    · simp
    · split
      · split
        · simp
        · split <;> simp
      · split <;> simp
  · simp

/-- The three ways through the resolution block of `Mount`. -/
theorem Mount_cases (env : Env) (lm : localMounter) (w : World) :
    (¬ (lm.mounts = none ∧ lm.mountable = true) ∧
      lm.Mount env w = lm.mountBody env w) ∨
    ((lm.mounts = none ∧ lm.mountable = true) ∧
      ∃ e, env.mountableMount (w.calls .resolve) = .error e ∧
        lm.Mount env w = ⟨"", some e, lm, w.emit .resolve⟩) ∨
    ((lm.mounts = none ∧ lm.mountable = true) ∧
      ∃ r, env.mountableMount (w.calls .resolve) = .ok r ∧
        lm.Mount env w =
          localMounter.mountBody env { lm with mounts := r.mounts, release := r.release }
            (w.emit .resolve)) := by
  by_cases h : lm.mounts = none ∧ lm.mountable = true
  · cases hr : env.mountableMount (w.calls .resolve) with
    | error e =>
      right; left
      exact ⟨h, e, rfl, by simp [localMounter.Mount, h, callMountable, hr]⟩
    | ok r =>
      right; right
      exact ⟨h, r, rfl, by simp [localMounter.Mount, h, callMountable, hr]⟩
  · left
    exact ⟨h, by simp [localMounter.Mount, h]⟩

/-- When the instance holds the single descriptor `m` after `Mount`, the call
was the body of `Mount` run on an instance that holds `m`, in the world
reached by the resolution block. -/
theorem Mount_single (env : Env) (lm : localMounter) (w : World) (m : Mount)
    (hm : (lm.Mount env w).lm.mounts = some [m]) :
    ∃ lm1 : localMounter, lm1.mounts = some [m] ∧ lm1.target = lm.target ∧
      lm1.release = (lm.Mount env w).lm.release ∧
      lm.Mount env w =
        lm1.mountBody env { w with trace := w.trace ++ lm.resolveEvents } := by
  rcases Mount_cases env lm w with ⟨hno, heq⟩ | ⟨hyes, e, _, heq⟩ | ⟨hyes, r, _, heq⟩
  · refine ⟨lm, ?_, rfl, ?_, ?_⟩
    · rw [heq] at hm; rw [← hm]; exact ((mountBody_fields env lm w).1).symm
    · rw [heq]; exact ((mountBody_fields env lm w).2.2).symm
    · rw [heq]; simp only [localMounter.resolveEvents, hno, if_false]
      rw [emit_nil_trace]
  · rw [heq] at hm
    simp only at hm
    rw [hyes.1] at hm
    cases hm
  · refine ⟨{ lm with mounts := r.mounts, release := r.release }, ?_, rfl, ?_, ?_⟩
    · rw [heq] at hm; rw [← hm]
      exact ((mountBody_fields env _ _).1).symm
    · rw [heq]; exact ((mountBody_fields env _ _).2.2).symm
    · rw [heq]; simp only [localMounter.resolveEvents, hyes, and_self, if_true]
      rfl

theorem calls_mk (w : World) (ds : List String) (bs : List (String × String × Bool))
    (ms : List String) (evs : List Event) (op : Op) :
    World.calls { dirs := ds, bindings := bs, mounted := ms, trace := w.trace ++ evs } op
      = w.calls op + (evs.map Event.op).count op := by
  simp [World.calls, List.count_append]

theorem releaseStep_eq (env : Env) (lm : localMounter) (w : World) :
    lm.releaseStep env w =
      ⟨releaseResult env lm.release w, lm,
        { w with trace := w.trace ++ releaseEvents lm.release }⟩ := by
  unfold localMounter.releaseStep releaseResult releaseEvents
  cases lm.release with
  | none => simp [emit_nil_trace]
  | some id => simp [callRelease, World.emit]

/-- The two outcomes of `os.MkdirTemp`. -/
theorem osMkdirTemp_cases (env : Env) (w : World) :
    (∃ e, osMkdirTemp env w = (.error e, w.emit .mkdirTemp)) ∨
    (∃ d, d ≠ "" ∧ d ∉ w.dirs ∧ env.mkdirTemp (w.calls .mkdirTemp) = .ok d ∧
      osMkdirTemp env w = (.ok d,
        { dirs := d :: w.dirs, bindings := w.bindings, mounted := w.mounted,
          trace := w.trace ++ [.mkdirTemp] })) := by
  unfold osMkdirTemp
  cases hd : env.mkdirTemp (w.calls .mkdirTemp) with
  | error e => left; exact ⟨e, rfl⟩
  | ok d =>
    by_cases hx : d = "" ∨ d ∈ w.dirs
    · left; exact ⟨.text "mkdirtemp: file exists", by simp [hx]⟩
    · right
      exact ⟨d, fun h => hx (Or.inl h), fun h => hx (Or.inr h), rfl, by simp [hx, World.emit]⟩

/-- The two outcomes of `bindfilter.ApplyFileBinding`. -/
theorem applyFileBinding_cases (env : Env) (dir src : String) (ro : Bool) (w : World) :
    (∃ e, bindfilterApplyFileBinding env dir src ro w
        = (some e, w.emit (.applyFileBinding dir src ro))) ∨
    (env.applyFileBinding (w.calls .applyFileBinding) = none ∧
      bindfilterApplyFileBinding env dir src ro w = (none,
        { dirs := w.dirs, bindings := (dir, src, ro) :: w.bindings, mounted := w.mounted,
          trace := w.trace ++ [.applyFileBinding dir src ro] })) := by
  unfold bindfilterApplyFileBinding
  cases ha : env.applyFileBinding (w.calls .applyFileBinding) with
  | some e => left; exact ⟨e, rfl⟩
  | none => right; exact ⟨rfl, by simp [World.emit]⟩

/-- The two outcomes of `m.Mount(dir)`. -/
theorem mountMount_cases (env : Env) (m : Mount) (dir : String) (w : World) :
    (∃ e, env.mountMount (w.calls .nativeMount) = some e ∧
      mountMount env m dir w = (some e, w.emit (.nativeMount m dir))) ∨
    (env.mountMount (w.calls .nativeMount) = none ∧
      mountMount env m dir w = (none,
        { dirs := w.dirs, bindings := w.bindings, mounted := dir :: w.mounted,
          trace := w.trace ++ [.nativeMount m dir] })) := by
  unfold mountMount
  cases ha : env.mountMount (w.calls .nativeMount) with
  | some e => left; exact ⟨e, rfl, rfl⟩
  | none => right; exact ⟨rfl, by simp [World.emit]⟩

/-- The body of `Mount` on an instance that holds the single descriptor `m`. -/
theorem mountBody_single (env : Env) (lm : localMounter) (w : World) (m : Mount)
    (hm : lm.mounts = some [m]) :
    lm.mountBody env w =
      match osMkdirTemp env w with
      | (.error e, w1) => ⟨"", some (.wrap e "failed to create temp dir"), lm, w1⟩
      | (.ok dir, w1) =>
        if m.Type_ = "bind" ∨ m.Type_ = "rbind" then
          if !m.ReadOnly then ⟨m.Source, none, lm, w1⟩
          else
            match bindfilterApplyFileBinding env dir m.Source m.ReadOnly w1 with
            | (some e, w2) => ⟨"", some (.wrap e ("failed to mount " ++ m.format)), lm, w2⟩
            | (none, w2) => ⟨dir, none, { lm with target := dir }, w2⟩
        else
          match mountWithRetries env m dir 2 w1 with
          | (some e, w2) => ⟨"", some (.wrap e ("failed to mount " ++ m.format)), lm, w2⟩
          | (none, w2) => ⟨dir, none, { lm with target := dir }, w2⟩ := by
  unfold localMounter.mountBody
  rw [hm]
  rfl

theorem Unmount_target_empty (env : Env) (lm : localMounter) (w : World) (m : Mount)
    (hm : lm.mounts = some [m]) (ht : lm.target = "") :
    lm.Unmount env w = lm.releaseStep env w := by
  simp [localMounter.Unmount, hm, ht]

theorem mountBody_writable_bind (env : Env) (lm : localMounter) (w : World) (m : Mount)
    (hm : lm.mounts = some [m]) (hb : m.Type_ = "bind" ∨ m.Type_ = "rbind")
    (hrw : m.ReadOnly = false) (herr : (lm.mountBody env w).err = none) :
    ∃ d, d ≠ "" ∧ d ∉ w.dirs ∧
      lm.mountBody env w =
        ⟨m.Source, none, lm,
          { dirs := d :: w.dirs, bindings := w.bindings, mounted := w.mounted,
            trace := w.trace ++ [.mkdirTemp] }⟩ := by
  rw [mountBody_single env lm w m hm] at herr ⊢
  rcases osMkdirTemp_cases env w with ⟨e, he⟩ | ⟨d, hd0, hdn, _, hd⟩
  · rw [he] at herr; simp at herr
  · rw [hd]
    exact ⟨d, hd0, hdn, by simp [hb, hrw]⟩

theorem mountBody_readonly_bind (env : Env) (lm : localMounter) (w : World) (m : Mount)
    (hm : lm.mounts = some [m]) (hb : m.Type_ = "bind" ∨ m.Type_ = "rbind")
    (hro : m.ReadOnly = true) (herr : (lm.mountBody env w).err = none) :
    ∃ d, d ≠ "" ∧ d ∉ w.dirs ∧
      lm.mountBody env w =
        ⟨d, none, { lm with target := d },
          { dirs := d :: w.dirs, bindings := (d, m.Source, true) :: w.bindings,
            mounted := w.mounted,
            trace := w.trace ++ [.mkdirTemp, .applyFileBinding d m.Source true] }⟩ := by
  rw [mountBody_single env lm w m hm] at herr ⊢
  rcases osMkdirTemp_cases env w with ⟨e, he⟩ | ⟨d, hd0, hdn, _, hd⟩
  · rw [he] at herr; simp at herr
  · rw [hd] at herr ⊢
    simp only [hb, hro, if_true, Bool.not_true, Bool.false_eq_true, if_false] at herr ⊢
    rcases applyFileBinding_cases env d m.Source true
      { dirs := d :: w.dirs, bindings := w.bindings, mounted := w.mounted,
        trace := w.trace ++ [.mkdirTemp] } with ⟨e, he⟩ | ⟨_, ha⟩
    · rw [he] at herr; simp at herr
    · rw [ha]
      exact ⟨d, hd0, hdn, by simp⟩

theorem calls_resolveEvents (lm : localMounter) (w : World) (op : Op) (h : op ≠ .resolve) :
    World.calls { w with trace := w.trace ++ lm.resolveEvents } op = w.calls op := by
  unfold localMounter.resolveEvents
  split
  · simp [calls_mk, Event.op, List.count_singleton, h, Ne.symm h]
  · simp [calls_mk]

theorem osMkdirTemp_resolveEvents (env : Env) (lm : localMounter) (w : World) (d : String)
    (hdir : (osMkdirTemp env w).1 = .ok d) :
    osMkdirTemp env { w with trace := w.trace ++ lm.resolveEvents } =
      (.ok d, { dirs := d :: w.dirs, bindings := w.bindings, mounted := w.mounted,
                trace := w.trace ++ lm.resolveEvents ++ [.mkdirTemp] }) := by
  unfold osMkdirTemp at hdir ⊢
  rw [calls_resolveEvents lm w .mkdirTemp (by decide)]
  cases hd : env.mkdirTemp (w.calls .mkdirTemp) with
  | error e => simp [hd] at hdir
  | ok d1 =>
    rw [hd] at hdir
    by_cases hx : d1 = "" ∨ d1 ∈ w.dirs
    · simp [hx] at hdir
    · simp only [hx, if_false] at hdir ⊢
      cases hdir
      simp [World.emit]

theorem mountWithRetries_busy_twice (env : Env) (m : Mount) (d : String) (w : World)
    (e1 e2 : Err)
    (h1 : env.mountMount (w.calls .nativeMount) = some e1)
    (hc1 : stringsContains e1.Error errStr = true)
    (h2 : env.mountMount (w.calls .nativeMount + 1) = some e2)
    (hc2 : stringsContains e2.Error errStr = true)
    (h3 : env.mountMount (w.calls .nativeMount + 2) = none) :
    mountWithRetries env m d 2 w =
      (none, { w with
        mounted := d :: w.mounted
        trace := w.trace ++ [.nativeMount m d, .sleep 30000000, .nativeMount m d,
          .sleep 60000000, .nativeMount m d] }) := by
  have hfuel : (wrapInt64 (2 + 1)).toNat = 3 := by decide
  have hs1 : wrapInt64 (wrapInt64 1 * backoff) = 30000000 := by decide
  have hs2 : wrapInt64 (wrapInt64 2 * backoff) = 60000000 := by decide
  unfold mountWithRetries
  rw [hfuel]
  simp only [World.calls] at h1 h2 h3
  simp [mountLoop, mountMount, timeSleep, World.calls, Event.op, h1, h2, h3, hc1, hc2, hs1, hs2,
    World.emit, List.count_append, List.count_cons, List.count_nil]

theorem wrapInt64_succ_toNat (retries : Int) (h0 : 0 ≤ retries) (h1 : retries < 2 ^ 63 - 1) :
    ∃ n, (wrapInt64 (retries + 1)).toNat = n + 1 := by
  unfold wrapInt64
  refine ⟨retries.toNat, ?_⟩
  have : (retries + 1 + 2 ^ 63) % 2 ^ 64 = retries + 1 + 2 ^ 63 := by
    apply Int.emod_eq_of_lt <;> omega
  rw [this]
  omega

theorem mountWithRetries_fatal (env : Env) (m : Mount) (d : String) (w : World) (e : Err)
    (retries : Int) (h0 : 0 ≤ retries) (h1 : retries < 2 ^ 63 - 1)
    (hf : env.mountMount (w.calls .nativeMount) = some e)
    (hc : stringsContains e.Error errStr = false) :
    mountWithRetries env m d retries w = (some e, w.emit (.nativeMount m d)) := by
  obtain ⟨n, hn⟩ := wrapInt64_succ_toNat retries h0 h1
  unfold mountWithRetries
  rw [hn]
  unfold mountLoop
  rcases mountMount_cases env m d w with ⟨e1, he1, hm⟩ | ⟨hok, _⟩
  · rw [hf] at he1
    cases he1
    rw [hm]
    simp [hc]
  · rw [hf] at hok; cases hok


theorem mountLoop_frame (env : Env) (m : Mount) (dir : String) (retries : Int) (left : Nat) :
    ∀ (i : Int) (err : Option Err) (w : World),
      (mountLoop env m dir retries left i err w).2.dirs = w.dirs ∧
      (mountLoop env m dir retries left i err w).2.bindings = w.bindings ∧
      ∀ op, op ≠ .nativeMount → op ≠ .sleep →
        (mountLoop env m dir retries left i err w).2.calls op = w.calls op := by
  induction left with
  | zero => intro i err w; simp [mountLoop]
  | succ n ih =>
    intro i err w
    unfold mountLoop
    rcases mountMount_cases env m dir w with ⟨e, _, he⟩ | ⟨_, hok⟩
    · rw [he]
      simp only
      have hemit : ∀ op, op ≠ .nativeMount →
          (w.emit (.nativeMount m dir)).calls op = w.calls op := by
        intro op h1
        simp [calls_emit, Event.op, Ne.symm h1]
      split
      · exact ⟨rfl, rfl, fun op h1 _ => hemit op h1⟩
      · split
        · obtain ⟨hd, hb, hc⟩ := ih (i + 1) (some e)
            (timeSleep (wrapInt64 (wrapInt64 (i + 1) * backoff)) (w.emit (.nativeMount m dir)))
          refine ⟨hd, hb, fun op h1 h2 => ?_⟩
          rw [hc op h1 h2]
          simp [timeSleep, calls_emit, Event.op, Ne.symm h1, Ne.symm h2]
        · exact ⟨rfl, rfl, fun op h1 _ => hemit op h1⟩
    · rw [hok]
      refine ⟨rfl, rfl, fun op h1 _ => ?_⟩
      simp [calls_mk, Event.op, List.count_singleton, h1, Ne.symm h1]

/-- The body of `Mount` calls neither the provider nor a release function. -/
theorem mountBody_calls (env : Env) (lm : localMounter) (w : World) (op : Op)
    (h1 : op ≠ .mkdirTemp) (h2 : op ≠ .applyFileBinding) (h3 : op ≠ .nativeMount)
    (h4 : op ≠ .sleep) :
    (lm.mountBody env w).world.calls op = w.calls op := by
  by_cases hlen : lm.len = 1
  · obtain ⟨m, hm⟩ : ∃ m, lm.mounts = some [m] := by
      unfold localMounter.len at hlen
      cases hmm : lm.mounts with
      | none => rw [hmm] at hlen; simp at hlen
      | some ms =>
        rw [hmm] at hlen
        match ms, hlen with
        | [m], _ => exact ⟨m, rfl⟩
    rw [mountBody_single env lm w m hm]
    have hmk : ∀ ds bs ms, World.calls
        { dirs := ds, bindings := bs, mounted := ms, trace := w.trace ++ [.mkdirTemp] } op
          = w.calls op := by
      intro ds bs ms
      simp [calls_mk, Event.op, List.count_singleton, h1, Ne.symm h1]
    rcases osMkdirTemp_cases env w with ⟨e, he⟩ | ⟨d, _, _, _, hd⟩
    · rw [he]; simp [calls_emit, Event.op, Ne.symm h1]
    · rw [hd]
      simp only
      split
      · split
        · exact hmk _ _ _
        · rcases applyFileBinding_cases env d m.Source m.ReadOnly
            { dirs := d :: w.dirs, bindings := w.bindings, mounted := w.mounted,
              trace := w.trace ++ [.mkdirTemp] } with ⟨e, he⟩ | ⟨_, ha⟩
          · rw [he]
            simp only [calls_emit, Event.op, Ne.symm h2, if_false, Nat.add_zero]
            exact hmk _ _ _
          · rw [ha]
            simp [World.calls, List.count_append, Event.op, List.count_cons,
              Ne.symm h1, Ne.symm h2]
      · have hf := (mountLoop_frame env m d 2 (wrapInt64 (2 + 1)).toNat 0 none
            { dirs := d :: w.dirs, bindings := w.bindings, mounted := w.mounted,
              trace := w.trace ++ [.mkdirTemp] }).2.2 op h3 h4
        rw [hmk] at hf
        unfold mountWithRetries
        split <;> rename_i heq <;> simp only <;> rw [heq] at hf <;> exact hf
  · rw [mountBody_of_length_ne_one env lm w hlen]


/-- `Mount` calls the provider exactly when `mounts` is nil and a provider is
set, and then once; it never calls a release function. -/
theorem Mount_calls (env : Env) (lm : localMounter) (w : World) :
    (lm.Mount env w).world.calls .resolve = w.calls .resolve + lm.resolveEvents.length ∧
    (lm.Mount env w).world.calls .release = w.calls .release := by
  rcases Mount_cases env lm w with ⟨hno, heq⟩ | ⟨hyes, e, _, heq⟩ | ⟨hyes, r, _, heq⟩
  · rw [heq, mountBody_calls env lm w .resolve (by decide) (by decide) (by decide) (by decide),
      mountBody_calls env lm w .release (by decide) (by decide) (by decide) (by decide)]
    simp [localMounter.resolveEvents, hno]
  · rw [heq]
    simp [localMounter.resolveEvents, hyes, calls_emit, Event.op]
  · rw [heq, mountBody_calls env _ _ .resolve (by decide) (by decide) (by decide) (by decide),
      mountBody_calls env _ _ .release (by decide) (by decide) (by decide) (by decide)]
    simp [localMounter.resolveEvents, hyes, calls_emit, Event.op]

/-- Once `mounts` is not nil, `Mount` keeps `mounts` and `release`. -/
theorem Mount_keeps (env : Env) (lm : localMounter) (w : World) (h : lm.mounts ≠ none) :
    (lm.Mount env w).lm.mounts = lm.mounts ∧ (lm.Mount env w).lm.release = lm.release := by
  rcases Mount_cases env lm w with ⟨_, heq⟩ | ⟨hyes, _⟩ | ⟨hyes, _⟩
  · rw [heq]
    exact ⟨(mountBody_fields env lm w).1, (mountBody_fields env lm w).2.2⟩
  · exact absurd hyes.1 h
  · exact absurd hyes.1 h

/-- A `Mount` that returns no error leaves exactly one descriptor stored. -/
theorem Mount_ok_single (env : Env) (lm : localMounter) (w : World)
    (h : (lm.Mount env w).err = none) : ∃ m, (lm.Mount env w).lm.mounts = some [m] := by
  have key : ∀ (lm1 : localMounter) (w1 : World), (lm1.mountBody env w1).err = none →
      ∃ m, (lm1.mountBody env w1).lm.mounts = some [m] := by
    intro lm1 w1 h1
    by_cases hlen : lm1.len = 1
    · rw [(mountBody_fields env lm1 w1).1]
      unfold localMounter.len at hlen
      cases hmm : lm1.mounts with
      | none => rw [hmm] at hlen; simp at hlen
      | some ms =>
        rw [hmm] at hlen
        match ms, hlen with
        | [m], _ => exact ⟨m, rfl⟩
    · rw [mountBody_of_length_ne_one env lm1 w1 hlen] at h1
      simp at h1
  rcases Mount_cases env lm w with ⟨_, heq⟩ | ⟨_, e, _, heq⟩ | ⟨_, r, _, heq⟩
  · rw [heq] at h ⊢; exact key _ _ h
  · rw [heq] at h; simp at h
  · rw [heq] at h ⊢; exact key _ _ h

/-- The two outcomes of `bindfilter.RemoveFileBinding`. -/
theorem removeFileBinding_cases (env : Env) (target : String) (w : World) :
    (∃ e, env.removeFileBinding (w.calls .removeFileBinding) = some e ∧
      bindfilterRemoveFileBinding env target w = (some e, w.emit (.removeFileBinding target))) ∨
    (env.removeFileBinding (w.calls .removeFileBinding) = none ∧
      bindfilterRemoveFileBinding env target w = (none,
        { dirs := w.dirs, bindings := w.bindings.filter (fun b => b.1 ≠ target),
          mounted := w.mounted, trace := w.trace ++ [.removeFileBinding target] })) := by
  unfold bindfilterRemoveFileBinding
  cases ha : env.removeFileBinding (w.calls .removeFileBinding) with
  | some e => left; exact ⟨e, rfl, rfl⟩
  | none => right; exact ⟨rfl, by simp [World.emit]⟩

/-- The two outcomes of `mount.Unmount`. -/
theorem mountUnmount_cases (env : Env) (target : String) (w : World) :
    (∃ e, env.mountUnmount (w.calls .nativeUnmount) = some e ∧
      mountUnmount env target w = (some e, w.emit (.nativeUnmount target))) ∨
    (env.mountUnmount (w.calls .nativeUnmount) = none ∧
      mountUnmount env target w = (none,
        { dirs := w.dirs, bindings := w.bindings,
          mounted := w.mounted.filter (fun t => t ≠ target),
          trace := w.trace ++ [.nativeUnmount target] })) := by
  unfold mountUnmount
  cases ha : env.mountUnmount (w.calls .nativeUnmount) with
  | some e => left; exact ⟨e, rfl, rfl⟩
  | none => right; exact ⟨rfl, by simp [World.emit]⟩

/-- `Unmount` on an instance that holds the single descriptor `m`. -/
theorem Unmount_single (env : Env) (lm : localMounter) (w : World) (m : Mount)
    (hm : lm.mounts = some [m]) :
    lm.Unmount env w =
      if lm.target ≠ "" then
        if m.Type_ = "bind" ∨ m.Type_ = "rbind" then
          match bindfilterRemoveFileBinding env lm.target w with
          | (some e, w1) =>
            if !e.IsErrno ERROR_INVALID_PARAMETER && !e.IsErrno ERROR_NOT_FOUND then
              ⟨some (.wrap e ("failed to unmount " ++ lm.target ++ ": " ++ e.Error)), lm, w1⟩
            else
              localMounter.releaseStep env { lm with target := "" } (osRemoveAll env lm.target w1)
          | (none, w1) =>
            localMounter.releaseStep env { lm with target := "" } (osRemoveAll env lm.target w1)
        else
          match mountUnmount env lm.target w with
          | (some e, w1) =>
            ⟨some (.wrap e ("failed to unmount " ++ lm.target ++ ": " ++ e.Error)), lm, w1⟩
          | (none, w1) =>
            localMounter.releaseStep env { lm with target := "" } (osRemoveAll env lm.target w1)
      else localMounter.releaseStep env lm w := by
  unfold localMounter.Unmount
  rw [hm]
  rfl

theorem len_eq_one (lm : localMounter) (h : lm.len = 1) : ∃ m, lm.mounts = some [m] := by
  unfold localMounter.len at h
  cases hmm : lm.mounts with
  | none => rw [hmm] at h; simp at h
  | some ms =>
    rw [hmm] at h
    match ms, h with
    | [m], _ => exact ⟨m, rfl⟩

/-- `Unmount` writes no field but `target`, never calls the provider, and calls
a release function at most once. -/
theorem Unmount_frame (env : Env) (lm : localMounter) (w : World) :
    (lm.Unmount env w).lm.mounts = lm.mounts ∧
    (lm.Unmount env w).lm.mountable = lm.mountable ∧
    (lm.Unmount env w).lm.release = lm.release ∧
    (lm.Unmount env w).world.calls .resolve = w.calls .resolve ∧
    (lm.Unmount env w).world.calls .release ≤ w.calls .release + 1 := by
  have hrel : ∀ (t : String) (w1 : World), w1.calls .resolve = w.calls .resolve →
      w1.calls .release = w.calls .release →
      (localMounter.releaseStep env { lm with target := t } w1).lm.mounts = lm.mounts ∧
      (localMounter.releaseStep env { lm with target := t } w1).lm.mountable = lm.mountable ∧
      (localMounter.releaseStep env { lm with target := t } w1).lm.release = lm.release ∧
      (localMounter.releaseStep env { lm with target := t } w1).world.calls .resolve
        = w.calls .resolve ∧
      (localMounter.releaseStep env { lm with target := t } w1).world.calls .release
        ≤ w.calls .release + 1 := by
    intro t w1 hr1 hr2
    rw [releaseStep_eq]
    refine ⟨rfl, rfl, rfl, ?_, ?_⟩
    · rw [← hr1]
      cases lm.release with
      | none => simp [releaseEvents, calls_mk]
      | some id => simp [releaseEvents, calls_mk, Event.op]
    · rw [← hr2]
      cases lm.release with
      | none => simp [releaseEvents, calls_mk]
      | some id => simp [releaseEvents, calls_mk, Event.op]
  have hrm : ∀ (op : Op) (w1 : World) (t : String), op ≠ .removeAll →
      (osRemoveAll env t w1).calls op = w1.calls op := by
    intro op w1 t h
    unfold osRemoveAll
    split <;>
    simp [World.emit, World.calls, List.count_append, Event.op,
      List.count_singleton, Ne.symm h, h]
  by_cases hlen : lm.len = 1
  · obtain ⟨m, hm⟩ := len_eq_one lm hlen
    rw [Unmount_single env lm w m hm]
    by_cases ht : lm.target ≠ ""
    · rw [if_pos ht]
      by_cases hb : m.Type_ = "bind" ∨ m.Type_ = "rbind"
      · rw [if_pos hb]
        rcases removeFileBinding_cases env lm.target w with ⟨e, _, he⟩ | ⟨_, hok⟩
        · rw [he]
          simp only
          split
          · simp [calls_emit, Event.op]
          · apply hrel
            · rw [hrm _ _ _ (by decide)]; simp [calls_emit, Event.op]
            · rw [hrm _ _ _ (by decide)]; simp [calls_emit, Event.op]
        · rw [hok]
          apply hrel
          · rw [hrm _ _ _ (by decide)]; simp [calls_mk, Event.op]
          · rw [hrm _ _ _ (by decide)]; simp [calls_mk, Event.op]
      · rw [if_neg hb]
        rcases mountUnmount_cases env lm.target w with ⟨e, _, he⟩ | ⟨_, hok⟩
        · rw [he]
          simp [calls_emit, Event.op]
        · rw [hok]
          apply hrel
          · rw [hrm _ _ _ (by decide)]; simp [calls_mk, Event.op]
          · rw [hrm _ _ _ (by decide)]; simp [calls_mk, Event.op]
    · rw [if_neg ht]
      have := hrel lm.target w rfl rfl
      simpa using this
  · rw [Unmount_of_length_ne_one env lm w hlen]
    simp

/-! ## The single-descriptor invariant (lines 30-32 and 95-97) -/

/-- C1: an instance whose descriptor sequence, as resolved, has a length other
than 1 fails in `Mount` and in `Unmount` with the not-implemented error that
carries the length.  `Mount` then leaves the instance and the world as they
are, but for the call of the provider and the storing of its answer when the
sequence is resolved by this very call; `Unmount` leaves both as they are.  So
no directory is created, no binding applied or removed, no native mount or
unmount made, no release function called, and `target` is not written. -/
theorem length_ne_one_fails (env : Env) (lm : localMounter) (w : World) :
    (∀ ms, lm.mounts = some ms → ms.length ≠ 1 →
        lm.Mount env w = ⟨"", some (errLayers ms.length), lm, w⟩) ∧
    (lm.mounts = none → lm.mountable = false →
        lm.Mount env w = ⟨"", some (errLayers 0), lm, w⟩) ∧
    (∀ r, lm.mounts = none → lm.mountable = true →
        env.mountableMount (w.calls .resolve) = .ok r → (r.mounts.getD []).length ≠ 1 →
        lm.Mount env w = ⟨"", some (errLayers (r.mounts.getD []).length),
          { lm with mounts := r.mounts, release := r.release }, w.emit .resolve⟩) ∧
    (lm.len ≠ 1 → lm.Unmount env w = ⟨some (errLayers lm.len), lm, w⟩) := by
  refine ⟨?_, ?_, ?_, Unmount_of_length_ne_one env lm w⟩
  · intro ms hms hlen
    have h1 : lm.len ≠ 1 := by simpa [localMounter.len, hms] using hlen
    have h2 : lm.len = ms.length := by simp [localMounter.len, hms]
    simp [localMounter.Mount, hms, mountBody_of_length_ne_one env lm w h1, h2]
  · intro hnone hm
    have h1 : lm.len ≠ 1 := by simp [localMounter.len, hnone]
    have h2 : lm.len = 0 := by simp [localMounter.len, hnone]
    simp [localMounter.Mount, hm, mountBody_of_length_ne_one env lm w h1, h2]
  · intro r hnone hm hr hlen
    simp only [localMounter.Mount, hnone, hm, callMountable, hr, and_self, if_true]
    rw [mountBody_of_length_ne_one]
    · rfl
    · simpa [localMounter.len] using hlen

/-- C1 at sample inputs: two stored descriptors, no provider at all, and a
provider that answers with an empty sequence. -/
theorem length_ne_one_fails_witness :
    twoLayers.Mount (calm (.ok ⟨none, none⟩)) World.empty
        = ⟨"", some (errLayers 2), twoLayers, World.empty⟩ ∧
    bare.Mount (calm (.ok ⟨none, none⟩)) World.empty
        = ⟨"", some (errLayers 0), bare, World.empty⟩ ∧
    fresh.Mount (calm (.ok ⟨some [], some 7⟩)) World.empty
        = ⟨"", some (errLayers 0), { fresh with mounts := some [], release := some 7 },
            World.empty.emit .resolve⟩ ∧
    twoLayers.Unmount (calm (.ok ⟨none, none⟩)) World.empty
        = ⟨some (errLayers 2), twoLayers, World.empty⟩ :=
  ⟨(length_ne_one_fails (calm (.ok ⟨none, none⟩)) twoLayers World.empty).1
      [roBind, layer] rfl (by decide),
   (length_ne_one_fails (calm (.ok ⟨none, none⟩)) bare World.empty).2.1 rfl rfl,
   (length_ne_one_fails (calm (.ok ⟨some [], some 7⟩)) fresh World.empty).2.2.1
      ⟨some [], some 7⟩ rfl rfl rfl (by decide),
   (length_ne_one_fails (calm (.ok ⟨none, none⟩)) twoLayers World.empty).2.2.2 (by decide)⟩

/-! ## The writable bind shortcut (lines 40-47) -/

/-- C2: on a fresh instance whose provider yields one writable bind
descriptor, with every external operation succeeding, `Mount` returns the
descriptor's source without error, applies no binding and leaves `target`
empty; but `os.MkdirTemp` has run before the dispatch, so a directory has been
created, and it is still there after the following `Unmount`. -/
theorem mount_writable_bind_leaves_directory :
    (fresh.Mount rwEnv World.empty).path = rwBind.Source ∧
    (fresh.Mount rwEnv World.empty).err = none ∧
    (fresh.Mount rwEnv World.empty).lm.target = "" ∧
    (fresh.Mount rwEnv World.empty).world.bindings = [] ∧
    (fresh.Mount rwEnv World.empty).world.trace = [.resolve, .mkdirTemp] ∧
    (fresh.Mount rwEnv World.empty).world.dirs = ["C:/tmp/buildkit-mount0"] ∧
    (run rwEnv [.mount, .unmount] (fresh, World.empty)).2.dirs
      = ["C:/tmp/buildkit-mount0"] := by
  decide

/-- C3: after a successful `Mount` of a single writable bind or rbind
descriptor on an instance with empty `target`, `target` is still empty and the
following `Unmount` makes exactly one external call, that of the recorded
release function, and returns its answer; it makes none at all and returns
success when no release function is recorded.  Nothing is unbound, unmounted or
removed. -/
theorem unmount_after_writable_bind (env : Env) (lm : localMounter) (w : World) (m : Mount)
    (r1 : MountResult) (ht : lm.target = "") (h1 : lm.Mount env w = r1)
    (herr : r1.err = none) (hm : r1.lm.mounts = some [m])
    (hb : m.Type_ = "bind" ∨ m.Type_ = "rbind") (hrw : m.ReadOnly = false) :
    r1.path = m.Source ∧ r1.lm.target = "" ∧
    (∀ id, r1.lm.release = some id →
      r1.lm.Unmount env r1.world =
        ⟨env.release (r1.world.calls .release), r1.lm, r1.world.emit (.release id)⟩) ∧
    (r1.lm.release = none → r1.lm.Unmount env r1.world = ⟨none, r1.lm, r1.world⟩) := by
  subst h1
  obtain ⟨lm1, hm1, ht1, _, heq⟩ := Mount_single env lm w m hm
  rw [heq] at herr
  obtain ⟨d, _, _, hbody⟩ := mountBody_writable_bind env lm1 _ m hm1 hb hrw herr
  rw [heq, hbody]
  refine ⟨rfl, by simpa [ht] using ht1, ?_, ?_⟩
  · intro id hid
    simp only at hid
    rw [Unmount_target_empty env lm1 _ m hm1 (by rw [ht1, ht]), releaseStep_eq]
    simp [hid, releaseResult, releaseEvents, World.emit]
  · intro hnone
    simp only at hnone
    rw [Unmount_target_empty env lm1 _ m hm1 (by rw [ht1, ht]), releaseStep_eq]
    simp [hnone, releaseResult, releaseEvents]

/-- C3 at a fresh instance whose provider yields one writable bind descriptor
and the release function 7. -/
theorem unmount_after_writable_bind_witness :
    fresh.target = "" ∧ (fresh.Mount rwEnv World.empty).err = none ∧
    (fresh.Mount rwEnv World.empty).lm.mounts = some [rwBind] ∧
    (fresh.Mount rwEnv World.empty).lm.release = some 7 ∧
    (fresh.Mount rwEnv World.empty).lm.Unmount rwEnv (fresh.Mount rwEnv World.empty).world =
      ⟨rwEnv.release ((fresh.Mount rwEnv World.empty).world.calls .release),
        (fresh.Mount rwEnv World.empty).lm,
        (fresh.Mount rwEnv World.empty).world.emit (.release 7)⟩ :=
  ⟨rfl, by decide, by decide, by decide,
    (unmount_after_writable_bind rwEnv fresh World.empty rwBind _ rfl rfl
      (by decide) (by decide) (by decide) (by decide)).2.2.1 7 (by decide)⟩

/-! ## The native mount with retries (lines 53-61 and 67-86) -/

/-- C5: let the instance hold a single descriptor `m` that is not a bind, let
`os.MkdirTemp` hand out `d`, and let the native mount fail on its first and
second call with errors whose message contains `errStr` and succeed on its
third.  Then `mountWithRetries` with `retries = 2` returns nil after exactly
three calls of `m.Mount` and exactly two sleeps, of 30ms and then 60ms
(durations in nanoseconds), and `Mount` succeeds, returns `d` and records
`target = d`. -/
theorem mount_retries_twice (env : Env) (lm : localMounter) (w : World) (m : Mount) (r1 : MountResult)
    (d : String) (e1 e2 : Err)
    (h1 : lm.Mount env w = r1) (hm : r1.lm.mounts = some [m])
    (hnb : ¬ (m.Type_ = "bind" ∨ m.Type_ = "rbind"))
    (hdir : (osMkdirTemp env w).1 = .ok d)
    (hf1 : env.mountMount (w.calls .nativeMount) = some e1)
    (hc1 : stringsContains e1.Error errStr = true)
    (hf2 : env.mountMount (w.calls .nativeMount + 1) = some e2)
    (hc2 : stringsContains e2.Error errStr = true)
    (hok : env.mountMount (w.calls .nativeMount + 2) = none) :
    (∀ (dir : String) (w0 : World), w0.calls .nativeMount = w.calls .nativeMount →
      mountWithRetries env m dir 2 w0 =
        (none, { w0 with
          mounted := dir :: w0.mounted
          trace := w0.trace ++ [.nativeMount m dir, .sleep 30000000, .nativeMount m dir,
            .sleep 60000000, .nativeMount m dir] })) ∧
    r1.err = none ∧ r1.path = d ∧ r1.lm.target = d ∧
    r1.world =
      { dirs := d :: w.dirs, bindings := w.bindings, mounted := d :: w.mounted,
        trace := w.trace ++ lm.resolveEvents ++
          [.mkdirTemp, .nativeMount m d, .sleep 30000000, .nativeMount m d,
            .sleep 60000000, .nativeMount m d] } := by
  subst h1
  refine ⟨fun dir w0 hk0 =>
    mountWithRetries_busy_twice env m dir w0 e1 e2 (by rw [hk0]; exact hf1) hc1
      (by rw [hk0]; exact hf2) hc2 (by rw [hk0]; exact hok), ?_⟩
  obtain ⟨lm1, hm1, ht1, _, heq⟩ := Mount_single env lm w m hm
  have hk : World.calls
      { dirs := d :: w.dirs, bindings := w.bindings, mounted := w.mounted,
        trace := w.trace ++ lm.resolveEvents ++ [.mkdirTemp] } .nativeMount
        = w.calls .nativeMount := by
    unfold localMounter.resolveEvents
    split <;> simp [World.calls, List.count_append, Event.op]
  rw [heq, mountBody_single env lm1 _ m hm1, osMkdirTemp_resolveEvents env lm w d hdir]
  simp only [hnb, if_false]
  rw [mountWithRetries_busy_twice env m d _ e1 e2 (by rw [hk]; exact hf1) hc1
    (by rw [hk]; exact hf2) hc2 (by rw [hk]; exact hok)]
  simp

/-- C5 at a fresh instance whose provider yields one native descriptor and
whose mount meets a sharing violation twice. -/
theorem mount_retries_twice_witness :
    (fresh.Mount busyEnv World.empty).lm.mounts = some [layer] ∧
    (osMkdirTemp busyEnv World.empty).1 = .ok "C:/tmp/buildkit-mount0" ∧
    busyEnv.mountMount 0 = some sharingViolation ∧
    stringsContains sharingViolation.Error errStr = true ∧
    busyEnv.mountMount 1 = some sharingViolation ∧ busyEnv.mountMount 2 = none ∧
    (fresh.Mount busyEnv World.empty).err = none ∧
    (fresh.Mount busyEnv World.empty).path = "C:/tmp/buildkit-mount0" ∧
    (fresh.Mount busyEnv World.empty).lm.target = "C:/tmp/buildkit-mount0" ∧
    (fresh.Mount busyEnv World.empty).world =
      { dirs := "C:/tmp/buildkit-mount0" :: World.empty.dirs,
        bindings := World.empty.bindings,
        mounted := "C:/tmp/buildkit-mount0" :: World.empty.mounted,
        trace := World.empty.trace ++ fresh.resolveEvents ++
          [.mkdirTemp, .nativeMount layer "C:/tmp/buildkit-mount0", .sleep 30000000,
            .nativeMount layer "C:/tmp/buildkit-mount0", .sleep 60000000,
            .nativeMount layer "C:/tmp/buildkit-mount0"] } :=
  ⟨by decide, rfl, by decide, by decide, by decide, by decide,
    (mount_retries_twice busyEnv fresh World.empty layer _ "C:/tmp/buildkit-mount0"
      sharingViolation sharingViolation rfl (by decide) (by decide) rfl (by decide)
      (by decide) (by decide) (by decide) (by decide)).2⟩

/-- C6: let the instance hold a single descriptor `m` that is not a bind, let
`os.MkdirTemp` hand out `d`, and let the first native mount fail with an error
`e` whose message does not contain `errStr`.  Then `mountWithRetries` (for
every retry count from 0 up, short of the largest `int`) returns `e` after
exactly one call of `m.Mount` and no sleep, and `Mount` fails with `e` wrapped
in "failed to mount", returns the empty path and leaves `target` as it was. -/
theorem mount_fatal_error_no_retry (env : Env) (lm : localMounter) (w : World) (m : Mount) (r1 : MountResult)
    (d : String) (e : Err)
    (h1 : lm.Mount env w = r1) (hm : r1.lm.mounts = some [m])
    (hnb : ¬ (m.Type_ = "bind" ∨ m.Type_ = "rbind"))
    (hdir : (osMkdirTemp env w).1 = .ok d)
    (hf : env.mountMount (w.calls .nativeMount) = some e)
    (hc : stringsContains e.Error errStr = false) :
    (∀ (retries : Int) (dir : String) (w0 : World), 0 ≤ retries → retries < 2 ^ 63 - 1 →
      w0.calls .nativeMount = w.calls .nativeMount →
      mountWithRetries env m dir retries w0 = (some e, w0.emit (.nativeMount m dir))) ∧
    r1.path = "" ∧ r1.err = some (.wrap e ("failed to mount " ++ m.format)) ∧
    r1.lm.target = lm.target ∧
    r1.world =
      { dirs := d :: w.dirs, bindings := w.bindings, mounted := w.mounted,
        trace := w.trace ++ lm.resolveEvents ++ [.mkdirTemp, .nativeMount m d] } := by
  subst h1
  refine ⟨fun retries dir w0 h0 h1 hk =>
    mountWithRetries_fatal env m dir w0 e retries h0 h1 (by rw [hk]; exact hf) hc, ?_⟩
  obtain ⟨lm1, hm1, ht1, _, heq⟩ := Mount_single env lm w m hm
  have hk : World.calls
      { dirs := d :: w.dirs, bindings := w.bindings, mounted := w.mounted,
        trace := w.trace ++ lm.resolveEvents ++ [.mkdirTemp] } .nativeMount
        = w.calls .nativeMount := by
    unfold localMounter.resolveEvents
    split <;> simp [World.calls, List.count_append, Event.op]
  rw [heq, mountBody_single env lm1 _ m hm1, osMkdirTemp_resolveEvents env lm w d hdir]
  simp only [hnb, if_false]
  rw [mountWithRetries_fatal env m d _ e 2 (by decide) (by decide) (by rw [hk]; exact hf) hc]
  simp [ht1, World.emit]

/-- C6 at a fresh instance whose provider yields one native descriptor and
whose mount is denied. -/
theorem mount_fatal_error_no_retry_witness :
    (fresh.Mount deniedEnv World.empty).lm.mounts = some [layer] ∧
    (osMkdirTemp deniedEnv World.empty).1 = .ok "C:/tmp/buildkit-mount0" ∧
    deniedEnv.mountMount 0 = some accessDenied ∧
    stringsContains accessDenied.Error errStr = false ∧
    (fresh.Mount deniedEnv World.empty).path = "" ∧
    (fresh.Mount deniedEnv World.empty).err =
      some (.wrap accessDenied ("failed to mount " ++ layer.format)) ∧
    (fresh.Mount deniedEnv World.empty).lm.target = fresh.target ∧
    (fresh.Mount deniedEnv World.empty).world =
      { dirs := "C:/tmp/buildkit-mount0" :: World.empty.dirs,
        bindings := World.empty.bindings, mounted := World.empty.mounted,
        trace := World.empty.trace ++ fresh.resolveEvents ++
          [.mkdirTemp, .nativeMount layer "C:/tmp/buildkit-mount0"] } :=
  ⟨by decide, rfl, by decide, by decide,
    (mount_fatal_error_no_retry deniedEnv fresh World.empty layer _ "C:/tmp/buildkit-mount0"
      accessDenied rfl (by decide) (by decide) rfl (by decide) (by decide)).2⟩

/-! ## Resolution and release over sequences of calls -/

/-- C7: on an instance with nil `mounts` and a provider, let `Mount`, then
`Unmount`, then `Mount` again all succeed.  Then the provider has yielded
exactly one descriptor, it has been called exactly once over the three calls
(by the first `Mount`; the count stands after `Unmount` and after the second
`Mount`), and the second `Mount` ends with the descriptors and the release
function the first one stored. -/
theorem resolve_once_over_remount (env : Env) (lm : localMounter) (w : World)
    (r1 r3 : MountResult) (r2 : UnmountResult)
    (hnil : lm.mounts = none) (hprov : lm.mountable = true)
    (h1 : lm.Mount env w = r1) (h2 : r1.lm.Unmount env r1.world = r2)
    (h3 : r2.lm.Mount env r2.world = r3)
    (he1 : r1.err = none) (_he2 : r2.err = none) (_he3 : r3.err = none) :
    (∃ m, r1.lm.mounts = some [m]) ∧
    r1.world.calls .resolve = w.calls .resolve + 1 ∧
    r2.world.calls .resolve = w.calls .resolve + 1 ∧
    r3.world.calls .resolve = w.calls .resolve + 1 ∧
    r3.lm.mounts = r1.lm.mounts ∧ r3.lm.release = r1.lm.release := by
  subst h1 h2 h3
  obtain ⟨m, hm⟩ := Mount_ok_single env lm w he1
  have hU := Unmount_frame env (lm.Mount env w).lm (lm.Mount env w).world
  have hne : ((lm.Mount env w).lm.Unmount env (lm.Mount env w).world).lm.mounts ≠ none := by
    rw [hU.1, hm]; simp
  have hK := Mount_keeps env _ ((lm.Mount env w).lm.Unmount env (lm.Mount env w).world).world hne
  have hC1 := (Mount_calls env lm w).1
  have hC3 := (Mount_calls env ((lm.Mount env w).lm.Unmount env (lm.Mount env w).world).lm
    ((lm.Mount env w).lm.Unmount env (lm.Mount env w).world).world).1
  have hr1 : lm.resolveEvents.length = 1 := by
    simp [localMounter.resolveEvents, hnil, hprov]
  have hr3 : ((lm.Mount env w).lm.Unmount env (lm.Mount env w).world).lm.resolveEvents.length
      = 0 := by
    simp [localMounter.resolveEvents, hne]
  refine ⟨⟨m, hm⟩, ?_, ?_, ?_, ?_, ?_⟩
  · rw [hC1, hr1]
  · rw [hU.2.2.2.1, hC1, hr1]
  · rw [hC3, hr3, hU.2.2.2.1, hC1, hr1]
  · rw [hK.1, hU.1]
  · rw [hK.2, hU.2.2.1]

/-- C7 at a fresh instance whose provider yields one read-only bind
descriptor. -/
theorem resolve_once_over_remount_witness :
    (fresh.Mount roEnv World.empty).err = none ∧
    ((fresh.Mount roEnv World.empty).lm.Unmount roEnv
      (fresh.Mount roEnv World.empty).world).err = none ∧
    (run roEnv [.mount, .unmount, .mount] (fresh, World.empty)).2.calls .resolve
      = World.empty.calls .resolve + 1 ∧
    (run roEnv [.mount, .unmount, .mount] (fresh, World.empty)).1.mounts
      = (fresh.Mount roEnv World.empty).lm.mounts ∧
    (run roEnv [.mount, .unmount, .mount] (fresh, World.empty)).1.release
      = (fresh.Mount roEnv World.empty).lm.release :=
  ⟨by decide, by decide,
    (resolve_once_over_remount roEnv fresh World.empty _ _ _ rfl rfl rfl rfl rfl
      (by decide) (by decide) (by decide)).2.2.2.1,
    (resolve_once_over_remount roEnv fresh World.empty _ _ _ rfl rfl rfl rfl rfl
      (by decide) (by decide) (by decide)).2.2.2.2.1,
    (resolve_once_over_remount roEnv fresh World.empty _ _ _ rfl rfl rfl rfl rfl
      (by decide) (by decide) (by decide)).2.2.2.2.2⟩

/-- C8, as stated, fails: a fresh instance has an empty `target` and no
release function, and its `Unmount` does not return success but the
not-implemented error for 0 layers (lines 95-97 come first). -/
theorem unmount_fresh_instance_fails :
    fresh.target = "" ∧ fresh.release = none ∧
    fresh.Unmount rwEnv World.empty = ⟨some (errLayers 0), fresh, World.empty⟩ ∧
    (fresh.Unmount rwEnv World.empty).err ≠ none := by
  decide

/-- C8, amended: on an instance that holds exactly one descriptor and has an
empty `target`, `Unmount` makes exactly one external call, that of the
recorded release function, and returns its answer; when no release function is
recorded it changes nothing and returns success. -/
theorem unmount_with_empty_target (env : Env) (lm : localMounter) (w : World) (m : Mount)
    (hm : lm.mounts = some [m]) (ht : lm.target = "") :
    (∀ id, lm.release = some id →
      lm.Unmount env w = ⟨env.release (w.calls .release), lm, w.emit (.release id)⟩) ∧
    (lm.release = none → lm.Unmount env w = ⟨none, lm, w⟩) := by
  rw [Unmount_target_empty env lm w m hm ht, releaseStep_eq]
  constructor
  · intro id hid
    simp [hid, releaseResult, releaseEvents, World.emit]
  · intro hnone
    simp [hnone, releaseResult, releaseEvents]

/-- C8, amended, at an instance built around one descriptor without release
function, and at the same instance with the release function 7. -/
theorem unmount_with_empty_target_witness :
    preset.Unmount rwEnv World.empty = ⟨none, preset, World.empty⟩ ∧
    localMounter.Unmount rwEnv { preset with release := some 7 } World.empty =
      ⟨rwEnv.release (World.empty.calls .release), { preset with release := some 7 },
        World.empty.emit (.release 7)⟩ :=
  ⟨(unmount_with_empty_target rwEnv preset World.empty rwBind rfl rfl).2 rfl,
    (unmount_with_empty_target rwEnv { preset with release := some 7 } World.empty rwBind
      rfl rfl).1 7 rfl⟩

/-- C9, as stated, fails: over `Mount`, `Unmount`, `Unmount` on a fresh
instance the provider is called once and the release function it returned is
called twice. -/
theorem release_twice_after_one_resolution :
    (run roEnv [.mount, .unmount, .unmount] (fresh, World.empty)).2.calls .resolve = 1 ∧
    (run roEnv [.mount, .unmount, .unmount] (fresh, World.empty)).2.calls .release = 2 ∧
    (run roEnv [.mount, .unmount, .unmount] (fresh, World.empty)).2.trace.filter
        (fun e => e.op = .release) = [.release 7, .release 7] ∧
    ¬ ((run roEnv [.mount, .unmount, .unmount] (fresh, World.empty)).2.calls .release ≤
        (run roEnv [.mount, .unmount, .unmount] (fresh, World.empty)).2.calls .resolve) := by
  decide

/-- C9, amended: over every sequence of `Mount` and `Unmount` calls on an
instance, from every state, the number of calls of a release function never
exceeds the number of `Unmount` calls: `Mount` calls none and `Unmount` at most
one. -/
theorem release_at_most_once_per_unmount (env : Env) (cs : List Call) :
    ∀ (lm : localMounter) (w : World),
      (run env cs (lm, w)).2.calls .release ≤ w.calls .release + cs.count .unmount := by
  induction cs with
  | nil => intro lm w; simp [run]
  | cons c cs ih =>
    intro lm w
    cases c with
    | mount =>
      have h := ih (lm.Mount env w).lm (lm.Mount env w).world
      rw [(Mount_calls env lm w).2] at h
      simpa [run, step] using h
    | unmount =>
      have h := ih (lm.Unmount env w).lm (lm.Unmount env w).world
      have h2 := (Unmount_frame env lm w).2.2.2.2
      simp only [run, step, List.count_cons_self]
      omega

/-! ## Further auxiliary facts -/

/-- How `Mount` changes the directories and `target`: either not at all, or
one new directory is created and `target` is kept or set to it. -/
theorem mountBody_dirs (env : Env) (lm : localMounter) (w : World) :
    ((lm.mountBody env w).world.dirs = w.dirs ∧ (lm.mountBody env w).lm.target = lm.target) ∨
    (∃ d, d ≠ "" ∧ d ∉ w.dirs ∧ (lm.mountBody env w).world.dirs = d :: w.dirs ∧
      ((lm.mountBody env w).lm.target = lm.target ∨ (lm.mountBody env w).lm.target = d)) := by
  by_cases hlen : lm.len = 1
  · obtain ⟨m, hm⟩ := len_eq_one lm hlen
    rw [mountBody_single env lm w m hm]
    rcases osMkdirTemp_cases env w with ⟨e, he⟩ | ⟨d, hd0, hdn, _, hd⟩
    · left; rw [he]; exact ⟨rfl, rfl⟩
    · right
      refine ⟨d, hd0, hdn, ?_⟩
      rw [hd]
      simp only
      split
      · split
        · exact ⟨rfl, Or.inl rfl⟩
        · rcases applyFileBinding_cases env d m.Source m.ReadOnly
            { dirs := d :: w.dirs, bindings := w.bindings, mounted := w.mounted,
              trace := w.trace ++ [.mkdirTemp] } with ⟨e, he⟩ | ⟨_, ha⟩
          · rw [he]; simp [World.emit]
          · rw [ha]; simp
      · have hf := (mountLoop_frame env m d 2 (wrapInt64 (2 + 1)).toNat 0 none
            { dirs := d :: w.dirs, bindings := w.bindings, mounted := w.mounted,
              trace := w.trace ++ [.mkdirTemp] }).1
        unfold mountWithRetries
        split <;> rename_i heq <;> simp only <;> rw [heq] at hf
        · exact ⟨hf, Or.inl trivial⟩
        · exact ⟨hf, Or.inr trivial⟩
  · left
    rw [mountBody_of_length_ne_one env lm w hlen]
    exact ⟨rfl, rfl⟩

theorem Mount_dirs (env : Env) (lm : localMounter) (w : World) :
    ((lm.Mount env w).world.dirs = w.dirs ∧ (lm.Mount env w).lm.target = lm.target) ∨
    (∃ d, d ≠ "" ∧ d ∉ w.dirs ∧ (lm.Mount env w).world.dirs = d :: w.dirs ∧
      ((lm.Mount env w).lm.target = lm.target ∨ (lm.Mount env w).lm.target = d)) := by
  rcases Mount_cases env lm w with ⟨_, heq⟩ | ⟨_, e, _, heq⟩ | ⟨_, r, _, heq⟩
  · rw [heq]; exact mountBody_dirs env lm w
  · left; rw [heq]; exact ⟨rfl, rfl⟩
  · rw [heq]
    exact mountBody_dirs env { lm with mounts := r.mounts, release := r.release }
      (w.emit .resolve)

/-- The world after `os.RemoveAll`, written out. -/
theorem osRemoveAll_eq (env : Env) (target : String) (w : World) :
    osRemoveAll env target w =
      { dirs := if env.removeAll (w.calls .removeAll) = none
          then w.dirs.filter (fun d => d ≠ target) else w.dirs,
        bindings := w.bindings, mounted := w.mounted,
        trace := w.trace ++ [.removeAll target] } := by
  unfold osRemoveAll
  cases env.removeAll (w.calls .removeAll) with
  | none => simp [World.emit]
  | some e => simp [World.emit]

/-- The directories after `os.RemoveAll`: without the target, or as before. -/
theorem osRemoveAll_dirs (env : Env) (target : String) (w : World) :
    (osRemoveAll env target w).dirs = w.dirs.filter (fun d => d ≠ target) ∨
    (osRemoveAll env target w).dirs = w.dirs := by
  rw [osRemoveAll_eq]
  by_cases h : env.removeAll (w.calls .removeAll) = none
  · left; simp [h]
  · right; simp [h]

/-- How `Unmount` changes the directories and `target`: either not at all, or
`target` is reset and the directory it named is removed or, when
`os.RemoveAll` fails, left in place. -/
theorem Unmount_dirs (env : Env) (lm : localMounter) (w : World) :
    ((lm.Unmount env w).world.dirs = w.dirs ∧ (lm.Unmount env w).lm.target = lm.target) ∨
    (lm.target ≠ "" ∧ (lm.Unmount env w).lm.target = "" ∧
      ((lm.Unmount env w).world.dirs = w.dirs.filter (fun d => d ≠ lm.target) ∨
        (lm.Unmount env w).world.dirs = w.dirs)) := by
  by_cases hlen : lm.len = 1
  · obtain ⟨m, hm⟩ := len_eq_one lm hlen
    rw [Unmount_single env lm w m hm]
    by_cases ht : lm.target ≠ ""
    · rw [if_pos ht]
      by_cases hb : m.Type_ = "bind" ∨ m.Type_ = "rbind"
      · rw [if_pos hb]
        rcases removeFileBinding_cases env lm.target w with ⟨e, _, he⟩ | ⟨_, hok⟩
        · rw [he]
          simp only
          split
          · left; exact ⟨rfl, rfl⟩
          · right; rw [releaseStep_eq]
            exact ⟨ht, rfl, osRemoveAll_dirs env lm.target _⟩
        · rw [hok]
          right; simp only [releaseStep_eq]
          exact ⟨ht, trivial, osRemoveAll_dirs env lm.target _⟩
      · rw [if_neg hb]
        rcases mountUnmount_cases env lm.target w with ⟨e, _, he⟩ | ⟨_, hok⟩
        · rw [he]; left; exact ⟨rfl, rfl⟩
        · rw [hok]
          right; simp only [releaseStep_eq]
          exact ⟨ht, trivial, osRemoveAll_dirs env lm.target _⟩
    · rw [if_neg ht, releaseStep_eq]
      left; exact ⟨rfl, rfl⟩
  · left
    rw [Unmount_of_length_ne_one env lm w hlen]
    exact ⟨rfl, rfl⟩

/-- The retry loop never lowers the number of native mount calls. -/
theorem mountLoop_calls_nativeMount_le (env : Env) (m : Mount) (dir : String) (retries : Int)
    (left : Nat) :
    ∀ (i : Int) (err : Option Err) (w : World),
      w.calls .nativeMount ≤
        (mountLoop env m dir retries left i err w).2.calls .nativeMount := by
  induction left with
  | zero => intro i err w; simp [mountLoop]
  | succ n ih =>
    intro i err w
    unfold mountLoop
    rcases mountMount_cases env m dir w with ⟨e, _, he⟩ | ⟨_, hok⟩
    · rw [he]
      simp only
      have hemit : (w.emit (.nativeMount m dir)).calls .nativeMount
          = w.calls .nativeMount + 1 := by
        simp [calls_emit, Event.op]
      by_cases h1 : i = retries
      · rw [if_pos h1]; simp [hemit]
      · rw [if_neg h1]
        by_cases h2 : stringsContains e.Error errStr = true
        · rw [if_pos h2]
          have h := ih (i + 1) (some e)
            (timeSleep (wrapInt64 (wrapInt64 (i + 1) * backoff)) (w.emit (.nativeMount m dir)))
          have hs : (timeSleep (wrapInt64 (wrapInt64 (i + 1) * backoff))
              (w.emit (.nativeMount m dir))).calls .nativeMount = w.calls .nativeMount + 1 := by
            simp [timeSleep, calls_emit, Event.op]
          rw [hs] at h
          omega
        · rw [if_neg h2]; simp [hemit]
    · rw [hok]
      simp [calls_mk, Event.op]

/-- The retry loop makes at least one native mount call when it runs at all. -/
theorem mountLoop_calls_nativeMount (env : Env) (m : Mount) (dir : String) (retries : Int)
    (n : Nat) (i : Int) (err : Option Err) (w : World) :
    w.calls .nativeMount + 1 ≤
      (mountLoop env m dir retries (n + 1) i err w).2.calls .nativeMount := by
  unfold mountLoop
  rcases mountMount_cases env m dir w with ⟨e, _, he⟩ | ⟨_, hok⟩
  · rw [he]
    simp only
    have hemit : (w.emit (.nativeMount m dir)).calls .nativeMount
        = w.calls .nativeMount + 1 := by
      simp [calls_emit, Event.op]
    by_cases h1 : i = retries
    · rw [if_pos h1]; simp [hemit]
    · rw [if_neg h1]
      by_cases h2 : stringsContains e.Error errStr = true
      · rw [if_pos h2]
        have h := mountLoop_calls_nativeMount_le env m dir retries n (i + 1) (some e)
          (timeSleep (wrapInt64 (wrapInt64 (i + 1) * backoff)) (w.emit (.nativeMount m dir)))
        have hs : (timeSleep (wrapInt64 (wrapInt64 (i + 1) * backoff))
            (w.emit (.nativeMount m dir))).calls .nativeMount = w.calls .nativeMount + 1 := by
          simp [timeSleep, calls_emit, Event.op]
        rw [hs] at h
        exact h
      · rw [if_neg h2]; simp [hemit]
  · rw [hok]
    simp [calls_mk, Event.op]

/-- A successful `Mount` of a single descriptor that is not a writable bind
creates one new directory, records it, and binds or mounts once more. -/
theorem mountBody_ok_materializes (env : Env) (lm : localMounter) (w : World) (m : Mount)
    (hm : lm.mounts = some [m])
    (hnw : ¬ ((m.Type_ = "bind" ∨ m.Type_ = "rbind") ∧ m.ReadOnly = false))
    (herr : (lm.mountBody env w).err = none) :
    ∃ d, d ≠ "" ∧ d ∉ w.dirs ∧ (lm.mountBody env w).path = d ∧
      (lm.mountBody env w).lm.target = d ∧
      (lm.mountBody env w).world.dirs = d :: w.dirs ∧
      (lm.mountBody env w).world.calls .mkdirTemp = w.calls .mkdirTemp + 1 ∧
      w.calls .applyFileBinding + w.calls .nativeMount <
        (lm.mountBody env w).world.calls .applyFileBinding +
          (lm.mountBody env w).world.calls .nativeMount := by
  by_cases hb : m.Type_ = "bind" ∨ m.Type_ = "rbind"
  · have hro : m.ReadOnly = true := by
      cases h : m.ReadOnly with
      | true => rfl
      | false => exact absurd ⟨hb, h⟩ hnw
    obtain ⟨d, hd0, hdn, hbody⟩ := mountBody_readonly_bind env lm w m hm hb hro herr
    rw [hbody]
    refine ⟨d, hd0, hdn, rfl, rfl, rfl, ?_, ?_⟩
    · simp [calls_mk, Event.op]
    · simp [calls_mk, Event.op]
  · rw [mountBody_single env lm w m hm] at herr ⊢
    rcases osMkdirTemp_cases env w with ⟨e, he⟩ | ⟨d, hd0, hdn, _, hd⟩
    · rw [he] at herr; simp at herr
    · rw [hd] at herr ⊢
      simp only [hb, if_false] at herr ⊢
      have hfuel : (wrapInt64 (2 + 1)).toNat = 3 := by decide
      unfold mountWithRetries at herr ⊢
      rw [hfuel] at herr ⊢
      have hf := mountLoop_frame env m d 2 3 0 none
        { dirs := d :: w.dirs, bindings := w.bindings, mounted := w.mounted,
          trace := w.trace ++ [.mkdirTemp] }
      have hn := mountLoop_calls_nativeMount env m d 2 2 0 none
        { dirs := d :: w.dirs, bindings := w.bindings, mounted := w.mounted,
          trace := w.trace ++ [.mkdirTemp] }
      have hk1 := hf.2.2 .mkdirTemp (by decide) (by decide)
      have hk2 := hf.2.2 .applyFileBinding (by decide) (by decide)
      simp only [calls_mk, List.map_cons, List.map_nil, Event.op] at hk1 hk2 hn
      generalize mountLoop env m d 2 3 0 none
        { dirs := d :: w.dirs, bindings := w.bindings, mounted := w.mounted,
          trace := w.trace ++ [.mkdirTemp] } = res at herr hf hk1 hk2 hn ⊢
      obtain ⟨err, w2⟩ := res
      cases err with
      | some e => simp at herr
      | none =>
        refine ⟨d, hd0, hdn, rfl, rfl, hf.1, ?_, ?_⟩
        · simpa using hk1
        · simp at hk2 hn
          simp only
          omega

theorem Mount_ok_materializes (env : Env) (lm : localMounter) (w : World) (m : Mount)
    (hm : (lm.Mount env w).lm.mounts = some [m])
    (hnw : ¬ ((m.Type_ = "bind" ∨ m.Type_ = "rbind") ∧ m.ReadOnly = false))
    (herr : (lm.Mount env w).err = none) :
    ∃ d, d ≠ "" ∧ d ∉ w.dirs ∧ (lm.Mount env w).path = d ∧
      (lm.Mount env w).lm.target = d ∧
      (lm.Mount env w).world.dirs = d :: w.dirs ∧
      (lm.Mount env w).world.calls .mkdirTemp = w.calls .mkdirTemp + 1 ∧
      w.calls .applyFileBinding + w.calls .nativeMount <
        (lm.Mount env w).world.calls .applyFileBinding +
          (lm.Mount env w).world.calls .nativeMount := by
  obtain ⟨lm1, hm1, _, _, heq⟩ := Mount_single env lm w m hm
  rw [heq] at herr ⊢
  obtain ⟨d, hd0, hdn, hp, ht, hd, hk, hc⟩ :=
    mountBody_ok_materializes env lm1 _ m hm1 hnw herr
  rw [calls_resolveEvents lm w .mkdirTemp (by decide)] at hk
  rw [calls_resolveEvents lm w .applyFileBinding (by decide),
    calls_resolveEvents lm w .nativeMount (by decide)] at hc
  exact ⟨d, hd0, hdn, hp, ht, hd, hk, hc⟩

theorem mountLoop_all_busy (env : Env) (m : Mount) (dir : String) (retries : Int) (r : Nat) :
    ∀ (i : Int) (err : Option Err) (w : World), i + r = retries →
      (∀ j, j ≤ r → ∃ e, env.mountMount (w.calls .nativeMount + j) = some e ∧
        stringsContains e.Error errStr = true) →
      mountLoop env m dir retries (r + 1) i err w =
        (env.mountMount (w.calls .nativeMount + r),
          { w with trace := w.trace ++ attemptsFrom m dir r i }) := by
  induction r with
  | zero =>
    intro i err w hi hall
    obtain ⟨e, he, _⟩ := hall 0 (Nat.le_refl 0)
    unfold mountLoop
    rcases mountMount_cases env m dir w with ⟨e1, he1, hm⟩ | ⟨hok, _⟩
    · rw [hm]
      have hir : i = retries := by simpa using hi
      simp [hir, he1, attemptsFrom, World.emit]
    · rw [Nat.add_zero] at he; rw [he] at hok; cases hok
  | succ n ih =>
    intro i err w hi hall
    obtain ⟨e, he, hc⟩ := hall 0 (Nat.zero_le _)
    rw [Nat.add_zero] at he
    unfold mountLoop
    rcases mountMount_cases env m dir w with ⟨e1, he1, hm⟩ | ⟨hok, _⟩
    · rw [he] at he1; cases he1
      rw [hm]
      have hir : i ≠ retries := by
        intro h; rw [h] at hi; push_cast at hi; omega
      simp only [hir, if_false, hc, if_true]
      have hk : (timeSleep (wrapInt64 (wrapInt64 (i + 1) * backoff))
          (w.emit (.nativeMount m dir))).calls .nativeMount = w.calls .nativeMount + 1 := by
        simp [timeSleep, calls_emit, Event.op]
      rw [ih (i + 1) (some e) _ (by push_cast at hi; omega) (by
        intro j hj
        rw [hk]
        have := hall (j + 1) (by omega)
        rwa [show w.calls .nativeMount + 1 + j = w.calls .nativeMount + (j + 1) by omega])]
      rw [hk]
      simp [timeSleep, World.emit, attemptsFrom, Nat.add_assoc, Nat.add_comm 1 n]
    · rw [he] at hok; cases hok

theorem attemptsFrom_counts (m : Mount) (dir : String) (r : Nat) :
    ∀ i : Int,
      ((attemptsFrom m dir r i).map Event.op).count .nativeMount = r + 1 ∧
      ((attemptsFrom m dir r i).map Event.op).count .sleep = r ∧
      sleepsOf (attemptsFrom m dir r i) =
        (List.range r).map (fun j : Nat => wrapInt64 (wrapInt64 (i + j + 1) * backoff)) := by
  induction r with
  | zero => intro i; simp [attemptsFrom, Event.op, sleepsOf]
  | succ n ih =>
    intro i
    obtain ⟨h1, h2, h3⟩ := ih (i + 1)
    refine ⟨?_, ?_, ?_⟩
    · simp [attemptsFrom, Event.op, h1]
    · simp [attemptsFrom, Event.op, h2]
    · simp only [attemptsFrom, sleepsOf, h3, List.range_succ_eq_map, List.map_cons,
        List.map_map]
      congr 1
      · simp
      · apply List.map_congr_left
        intro j _
        simp only [Function.comp, Nat.cast_succ]
        rw [show i + 1 + (j : Int) + 1 = i + ((j : Int) + 1) + 1 by omega]

theorem sleep_in_range (k : Nat) (h1 : 1 ≤ k) (h2 : k ≤ 307445734561) :
    wrapInt64 (wrapInt64 k * backoff) = k * 30000000 := by
  unfold wrapInt64 backoff
  omega

theorem sleepTotal_append (tr evs : List Event) :
    sleepTotal (tr ++ evs) = sleepTotal tr + sleepTotal evs := by
  simp [sleepTotal, List.sum_append]

theorem sleep_le (retries i : Int) (h0 : 0 ≤ i) (h1 : i < retries) :
    max (wrapInt64 (wrapInt64 (i + 1) * backoff)) 0 ≤ retries * 30000000 := by
  unfold wrapInt64 backoff
  omega

theorem mountLoop_sleepTotal (env : Env) (m : Mount) (dir : String) (retries : Int)
    (left : Nat) :
    ∀ (i : Int) (err : Option Err) (w : World), 0 ≤ i → i ≤ retries →
      i + left ≤ retries + 1 →
      sleepTotal (mountLoop env m dir retries left i err w).2.trace ≤
        sleepTotal w.trace + (retries - i) * (retries * 30000000) := by
  induction left with
  | zero =>
    intro i err w h0 hir _
    have ha : 0 ≤ retries - i := by omega
    have hb : 0 ≤ retries * 30000000 := by omega
    have hnn : 0 ≤ (retries - i) * (retries * 30000000) := mul_nonneg ha hb
    simp only [mountLoop]
    omega
  | succ n ih =>
    intro i err w h0 hir h1
    have ha : 0 ≤ retries - i := by omega
    have hb : 0 ≤ retries * 30000000 := by omega
    have hnn : 0 ≤ (retries - i) * (retries * 30000000) := mul_nonneg ha hb
    unfold mountLoop
    rcases mountMount_cases env m dir w with ⟨e, _, he⟩ | ⟨_, hok⟩
    · rw [he]
      simp only
      have hemit : sleepTotal (w.emit (.nativeMount m dir)).trace = sleepTotal w.trace := by
        simp [World.emit, sleepTotal_append, sleepTotal, sleepTime]
      by_cases h1' : i = retries
      · rw [if_pos h1']; simp only [hemit]; omega
      · rw [if_neg h1']
        by_cases h2 : stringsContains e.Error errStr = true
        · rw [if_pos h2]
          have h := ih (i + 1) (some e)
            (timeSleep (wrapInt64 (wrapInt64 (i + 1) * backoff)) (w.emit (.nativeMount m dir)))
            (by omega) (by omega) (by push_cast at h1; omega)
          have hs : sleepTotal (timeSleep (wrapInt64 (wrapInt64 (i + 1) * backoff))
              (w.emit (.nativeMount m dir))).trace
              = sleepTotal w.trace + max (wrapInt64 (wrapInt64 (i + 1) * backoff)) 0 := by
            simp [timeSleep, World.emit, sleepTotal_append, sleepTotal, sleepTime]
          rw [hs] at h
          have hd := sleep_le retries i h0 (by omega)
          have hring : (retries - (i + 1)) * (retries * 30000000) + retries * 30000000
              = (retries - i) * (retries * 30000000) := by ring
          omega
        · rw [if_neg h2]; simp only [hemit]; omega
    · rw [hok]
      simp only
      have : sleepTotal (w.trace ++ [Event.nativeMount m dir]) = sleepTotal w.trace := by
        simp [sleepTotal_append, sleepTotal, sleepTime]
      rw [this]; omega

theorem wrapInt64_succ_le (retries : Int) (h0 : 0 ≤ retries) :
    ((wrapInt64 (retries + 1)).toNat : Int) ≤ retries + 1 := by
  unfold wrapInt64
  omega

/-- Over every sequence of calls the directories of the starting world stay,
and a non-empty `target` names a directory that exists and was not there at
the start. -/
theorem run_target_invariant (env : Env) (cs : List Call) :
    ∀ (lm : localMounter) (w0 w : World),
      (∀ x ∈ w0.dirs, x ∈ w.dirs) →
      (lm.target ≠ "" → lm.target ∈ w.dirs ∧ lm.target ∉ w0.dirs) →
      (∀ x ∈ w0.dirs, x ∈ (run env cs (lm, w)).2.dirs) ∧
      ((run env cs (lm, w)).1.target ≠ "" →
        (run env cs (lm, w)).1.target ∈ (run env cs (lm, w)).2.dirs ∧
        (run env cs (lm, w)).1.target ∉ w0.dirs) := by
  induction cs with
  | nil => intro lm w0 w h1 h2; exact ⟨h1, h2⟩
  | cons c cs ih =>
    intro lm w0 w h1 h2
    cases c with
    | mount =>
      simp only [run, step]
      apply ih
      · rcases Mount_dirs env lm w with ⟨hd, _⟩ | ⟨d, _, _, hd, _⟩
        · rw [hd]; exact h1
        · rw [hd]; intro x hx; exact List.mem_cons_of_mem _ (h1 x hx)
      · intro hne
        rcases Mount_dirs env lm w with ⟨hd, ht⟩ | ⟨d, _, hdn, hd, ht | ht⟩
        · rw [hd, ht]; rw [ht] at hne; exact h2 hne
        · rw [hd, ht]; rw [ht] at hne
          exact ⟨List.mem_cons_of_mem _ (h2 hne).1, (h2 hne).2⟩
        · rw [hd, ht]
          exact ⟨List.mem_cons_self _ _, fun hx => hdn (h1 d hx)⟩
    | unmount =>
      simp only [run, step]
      apply ih
      · rcases Unmount_dirs env lm w with ⟨hd, _⟩ | ⟨hne, _, hd | hd⟩
        · rw [hd]; exact h1
        · rw [hd]
          intro x hx
          refine List.mem_filter.2 ⟨h1 x hx, ?_⟩
          simp only [ne_eq, decide_not, Bool.not_eq_eq_eq_not, Bool.not_true,
            decide_eq_false_iff_not]
          intro hxt
          exact (h2 hne).2 (hxt ▸ hx)
        · rw [hd]; exact h1
      · intro hne
        rcases Unmount_dirs env lm w with ⟨hd, ht⟩ | ⟨_, ht, _⟩
        · rw [hd, ht]; rw [ht] at hne; exact h2 hne
        · exact absurd ht hne

/-! ## Failure of the resolution (lines 19-23) -/

/-- C11: when `mounts` is nil, a provider is set and its resolution returns the
error `e`, `Mount` returns the empty path and `e` itself, not wrapped, and the
instance is what it was: `mounts` stays nil, `release` and `target` are not
written.  The only external call is that of the provider, so no directory is
created. -/
theorem mount_resolution_error (env : Env) (lm : localMounter) (w : World) (e : Err)
    (hnil : lm.mounts = none) (hprov : lm.mountable = true)
    (hres : env.mountableMount (w.calls .resolve) = .error e) :
    lm.Mount env w = ⟨"", some e, lm, w.emit .resolve⟩ ∧
    (lm.Mount env w).lm.mounts = none ∧
    (lm.Mount env w).lm.release = lm.release ∧
    (lm.Mount env w).lm.target = lm.target ∧
    (lm.Mount env w).world.dirs = w.dirs ∧
    (lm.Mount env w).world.trace = w.trace ++ [.resolve] := by
  have h : lm.Mount env w = ⟨"", some e, lm, w.emit .resolve⟩ := by
    simp [localMounter.Mount, hnil, hprov, callMountable, hres]
  rw [h]
  exact ⟨rfl, hnil, rfl, rfl, rfl, rfl⟩

/-- C11 at a fresh instance whose provider fails. -/
theorem mount_resolution_error_witness :
    fresh.mounts = none ∧ fresh.mountable = true ∧
    failingEnv.mountableMount (World.empty.calls .resolve) = .error accessDenied ∧
    fresh.Mount failingEnv World.empty = ⟨"", some accessDenied, fresh, World.empty.emit .resolve⟩ :=
  ⟨rfl, rfl, rfl, (mount_resolution_error failingEnv fresh World.empty accessDenied rfl rfl rfl).1⟩

/-! ## A second `Mount` without `Unmount` -/

/-- C14, as stated, fails: a second `Mount` right after a successful first one
on a read-only bind creates a second directory, applies a second binding and
sets `target` to the second directory. -/
theorem second_mount_creates_second_directory :
    (fresh.Mount roEnv World.empty).err = none ∧
    (fresh.Mount roEnv World.empty).lm.target = "C:/tmp/buildkit-mount0" ∧
    (run roEnv [.mount, .mount] (fresh, World.empty)).1.target = "C:/tmp/buildkit-mount1" ∧
    (run roEnv [.mount, .mount] (fresh, World.empty)).2.dirs
      = ["C:/tmp/buildkit-mount1", "C:/tmp/buildkit-mount0"] ∧
    (run roEnv [.mount, .mount] (fresh, World.empty)).2.trace
      = [.resolve, .mkdirTemp,
          .applyFileBinding "C:/tmp/buildkit-mount0" "C:/snapshots/7/fs" true,
          .mkdirTemp,
          .applyFileBinding "C:/tmp/buildkit-mount1" "C:/snapshots/7/fs" true] := by
  decide

/-- C14, amended: `Mount` does not look at `target`.  After a successful
`Mount` of a single descriptor that is not a writable bind, a second successful
`Mount` creates one more directory, new and different from the one recorded by
the first call, binds or mounts once more and records the new directory as
`target`; the first directory stays in place.  Only the provider is not called
again. -/
theorem second_mount_materializes_again (env : Env) (lm : localMounter) (w : World) (m : Mount)
    (r1 r2 : MountResult)
    (h1 : lm.Mount env w = r1) (he1 : r1.err = none) (hm : r1.lm.mounts = some [m])
    (hnw : ¬ ((m.Type_ = "bind" ∨ m.Type_ = "rbind") ∧ m.ReadOnly = false))
    (h2 : r1.lm.Mount env r1.world = r2) (he2 : r2.err = none) :
    r1.lm.target ≠ "" ∧ r1.lm.target ∈ r1.world.dirs ∧
    r2.lm.target ∉ r1.world.dirs ∧ r2.lm.target ≠ r1.lm.target ∧ r2.path = r2.lm.target ∧
    r2.world.dirs = r2.lm.target :: r1.world.dirs ∧
    r2.world.calls .mkdirTemp = r1.world.calls .mkdirTemp + 1 ∧
    r1.world.calls .applyFileBinding + r1.world.calls .nativeMount <
      r2.world.calls .applyFileBinding + r2.world.calls .nativeMount ∧
    r2.world.calls .resolve = r1.world.calls .resolve := by
  subst h1 h2
  obtain ⟨d1, hd10, _, _, ht1, hdirs1, _, _⟩ := Mount_ok_materializes env lm w m hm hnw he1
  have hne : (lm.Mount env w).lm.mounts ≠ none := by rw [hm]; simp
  have hK := Mount_keeps env (lm.Mount env w).lm (lm.Mount env w).world hne
  obtain ⟨d2, _, hd2n, hp2, ht2, hdirs2, hk2, hc2⟩ :=
    Mount_ok_materializes env (lm.Mount env w).lm (lm.Mount env w).world m
      (by rw [hK.1]; exact hm) hnw he2
  have hmem : (lm.Mount env w).lm.target ∈ (lm.Mount env w).world.dirs := by
    rw [ht1, hdirs1]; exact List.mem_cons_self _ _
  have hres := (Mount_calls env (lm.Mount env w).lm (lm.Mount env w).world).1
  have hr0 : (lm.Mount env w).lm.resolveEvents.length = 0 := by
    simp [localMounter.resolveEvents, hne]
  refine ⟨by rw [ht1]; exact hd10, hmem, by rw [ht2]; exact hd2n, ?_, by rw [hp2, ht2],
    by rw [ht2]; exact hdirs2, hk2, hc2, by rw [hres, hr0]; rfl⟩
  intro heq
  rw [ht2] at heq
  exact hd2n (heq ▸ hmem)

/-- C14, amended, at a fresh instance whose provider yields one read-only bind
descriptor. -/
theorem second_mount_materializes_again_witness :
    (fresh.Mount roEnv World.empty).err = none ∧
    ((fresh.Mount roEnv World.empty).lm.Mount roEnv (fresh.Mount roEnv World.empty).world).err
      = none ∧
    ((fresh.Mount roEnv World.empty).lm.Mount roEnv
        (fresh.Mount roEnv World.empty).world).lm.target
      ≠ (fresh.Mount roEnv World.empty).lm.target ∧
    ((fresh.Mount roEnv World.empty).lm.Mount roEnv
        (fresh.Mount roEnv World.empty).world).world.calls .mkdirTemp
      = (fresh.Mount roEnv World.empty).world.calls .mkdirTemp + 1 :=
  ⟨by decide, by decide,
    (second_mount_materializes_again roEnv fresh World.empty roBind _ _ rfl (by decide)
      (by decide) (by decide) rfl (by decide)).2.2.2.1,
    (second_mount_materializes_again roEnv fresh World.empty roBind _ _ rfl (by decide)
      (by decide) (by decide) rfl (by decide)).2.2.2.2.2.2.1⟩

/-! ## The retry loop when the target stays busy (lines 67-86) -/

/-- C17, as stated, fails at the largest `int`: `retries + 1` wraps to a
negative number, the loop body never runs, and `mountWithRetries` returns nil
without a single attempt although every attempt would fail.  Moreover the
product of line 79 wraps from the 307445734562nd sleep on. -/
theorem retries_max_int_makes_no_attempt :
    (∀ k, ∃ e, alwaysBusyEnv.mountMount k = some e ∧ stringsContains e.Error errStr = true) ∧
    mountWithRetries alwaysBusyEnv layer "C:/tmp/buildkit-mount0" (2 ^ 63 - 1) World.empty
      = (none, World.empty) ∧
    wrapInt64 (wrapInt64 307445734562 * backoff) ≠ 307445734562 * 30000000 ∧
    wrapInt64 (wrapInt64 307445734562 * backoff) < 0 := by
  refine ⟨fun _ => ⟨sharingViolation, rfl, by decide⟩, by decide, by decide, by decide⟩

/-- C17, amended: for every `retries = n` from 0 up, short of the largest
`int`, if each of the `n + 1` native mount attempts fails with an error whose
message contains `errStr`, then `mountWithRetries` makes exactly `n + 1`
attempts and exactly `n` sleeps, in turn, returns the error of the last
attempt, and the k-th sleep lasts `k * 30ms` as a 64-bit count of nanoseconds:
exactly `k * 30000000` for every `k` up to 307445734561. -/
theorem mountWithRetries_all_busy (env : Env) (m : Mount) (dir : String) (w : World) (n : Nat)
    (hn : (n : Int) < 2 ^ 63 - 1)
    (hall : ∀ j, j ≤ n → ∃ e, env.mountMount (w.calls .nativeMount + j) = some e ∧
      stringsContains e.Error errStr = true) :
    (mountWithRetries env m dir n w).1 = env.mountMount (w.calls .nativeMount + n) ∧
    (∃ e, (mountWithRetries env m dir n w).1 = some e) ∧
    (mountWithRetries env m dir n w).2.trace = w.trace ++ attemptsFrom m dir n 0 ∧
    (mountWithRetries env m dir n w).2.calls .nativeMount = w.calls .nativeMount + (n + 1) ∧
    (mountWithRetries env m dir n w).2.calls .sleep = w.calls .sleep + n ∧
    sleepsOf (attemptsFrom m dir n 0) =
      (List.range n).map (fun j : Nat => wrapInt64 (wrapInt64 ((j : Int) + 1) * backoff)) ∧
    (∀ k : Nat, 1 ≤ k → k ≤ 307445734561 →
      wrapInt64 (wrapInt64 k * backoff) = k * 30000000) := by
  have hfuel : (wrapInt64 ((n : Int) + 1)).toNat = n + 1 := by
    unfold wrapInt64
    omega
  obtain ⟨c1, c2, c3⟩ := attemptsFrom_counts m dir n 0
  unfold mountWithRetries
  rw [hfuel, mountLoop_all_busy env m dir n n 0 none w (by simp) hall]
  refine ⟨rfl, ?_, rfl, ?_, ?_, ?_, sleep_in_range⟩
  · obtain ⟨e, he, _⟩ := hall n (Nat.le_refl n)
    exact ⟨e, he⟩
  · simp only [calls_mk, c1]
  · simp only [calls_mk, c2]
  · rw [c3]
    apply List.map_congr_left
    intro j _
    simp

/-- C17, amended, at `retries = 2` with a target that stays busy. -/
theorem mountWithRetries_all_busy_witness :
    (mountWithRetries alwaysBusyEnv layer "C:/tmp/buildkit-mount0" 2 World.empty).1
      = some sharingViolation ∧
    (mountWithRetries alwaysBusyEnv layer "C:/tmp/buildkit-mount0" 2 World.empty).2.trace
      = World.empty.trace ++ attemptsFrom layer "C:/tmp/buildkit-mount0" 2 0 ∧
    sleepsOf (attemptsFrom layer "C:/tmp/buildkit-mount0" 2 0) = [30000000, 60000000] :=
  ⟨(mountWithRetries_all_busy alwaysBusyEnv layer "C:/tmp/buildkit-mount0" World.empty 2
      (by decide) (fun _ _ => ⟨sharingViolation, rfl, by decide⟩)).1,
    (mountWithRetries_all_busy alwaysBusyEnv layer "C:/tmp/buildkit-mount0" World.empty 2
      (by decide) (fun _ _ => ⟨sharingViolation, rfl, by decide⟩)).2.2.1,
    by decide⟩

/-- C18: for every `retries` from 0 up and every behaviour of the native mount,
the time `mountWithRetries` spends sleeping is at most
`retries * 30ms * retries`, in nanoseconds; for `retries = 2` that is 120ms. -/
theorem sleep_total_bound (env : Env) (m : Mount) (dir : String) (retries : Int) (w : World)
    (h0 : 0 ≤ retries) :
    sleepTotal (mountWithRetries env m dir retries w).2.trace ≤
      sleepTotal w.trace + retries * 30000000 * retries := by
  unfold mountWithRetries
  have h := mountLoop_sleepTotal env m dir retries (wrapInt64 (retries + 1)).toNat 0 none w
    (le_refl 0) h0 (by have := wrapInt64_succ_le retries h0; omega)
  have hring : (retries - 0) * (retries * 30000000) = retries * 30000000 * retries := by ring
  rw [hring] at h
  exact h

/-- C18 at `retries = 2` with a target that stays busy: 90ms slept, 120ms
allowed. -/
theorem sleep_total_bound_witness :
    (0 : Int) ≤ 2 ∧
    sleepTotal
      (mountWithRetries alwaysBusyEnv layer "C:/tmp/buildkit-mount0" 2 World.empty).2.trace
      = 90000000 ∧
    sleepTotal
      (mountWithRetries alwaysBusyEnv layer "C:/tmp/buildkit-mount0" 2 World.empty).2.trace
      ≤ sleepTotal World.empty.trace + 2 * 30000000 * 2 :=
  ⟨by decide, by decide,
    sleep_total_bound alwaysBusyEnv layer "C:/tmp/buildkit-mount0" 2 World.empty (by decide)⟩

/-! ## Invariant I3 -/

/-- C19, as stated, fails: when `ApplyFileBinding` is refused for a read-only
bind, `Mount` fails, the directory it created is still there, and `target` is
empty; the descriptor is not a writable bind. -/
theorem failed_bind_leaves_directory :
    roBind.ReadOnly = true ∧
    (fresh.Mount bindFailEnv World.empty).err ≠ none ∧
    (fresh.Mount bindFailEnv World.empty).lm.target = "" ∧
    (fresh.Mount bindFailEnv World.empty).world.dirs = ["C:/tmp/buildkit-mount0"] ∧
    (fresh.Mount bindFailEnv World.empty).world.trace =
      [.resolve, .mkdirTemp,
        .applyFileBinding "C:/tmp/buildkit-mount0" "C:/snapshots/7/fs" true] := by
  decide

/-- C19, amended: in every state reached from an instance with empty `target`
by `Mount` and `Unmount` calls, whatever the external operations answer, a
non-empty `target` names a directory that exists and did not exist at the
start, so one this instance's `Mount` created and `Unmount` has not yet
removed. -/
theorem target_names_own_directory (env : Env) (cs : List Call) (lm : localMounter)
    (w : World) (ht : lm.target = "") :
    (run env cs (lm, w)).1.target ≠ "" →
      (run env cs (lm, w)).1.target ∈ (run env cs (lm, w)).2.dirs ∧
      (run env cs (lm, w)).1.target ∉ w.dirs :=
  (run_target_invariant env cs lm w w (fun _ h => h) (fun h => absurd ht h)).2

/-- C19, amended, at a fresh instance over `Mount`, `Unmount`, `Mount` of a
read-only bind. -/
theorem target_names_own_directory_witness :
    fresh.target = "" ∧
    (run roEnv [.mount, .unmount, .mount] (fresh, World.empty)).1.target ≠ "" ∧
    (run roEnv [.mount, .unmount, .mount] (fresh, World.empty)).1.target ∈
      (run roEnv [.mount, .unmount, .mount] (fresh, World.empty)).2.dirs :=
  ⟨rfl, by decide,
    (target_names_own_directory roEnv [.mount, .unmount, .mount] fresh World.empty rfl
      (by decide)).1⟩

/-! ## The teardown when `os.RemoveAll` may fail -/

/-- The release step after a teardown whose calls are `evs`, none of them a
call of a release function. -/
theorem releaseStep_after (env : Env) (lm : localMounter) (w : World) (ds : List String)
    (bs : List (String × String × Bool)) (ms : List String) (evs : List Event)
    (hev : (evs.map Event.op).count .release = 0) :
    localMounter.releaseStep env lm
        { dirs := ds, bindings := bs, mounted := ms, trace := w.trace ++ evs } =
      ⟨releaseResult env lm.release w, lm,
        { dirs := ds, bindings := bs, mounted := ms,
          trace := w.trace ++ evs ++ releaseEvents lm.release }⟩ := by
  rw [releaseStep_eq]
  have : World.calls { dirs := ds, bindings := bs, mounted := ms, trace := w.trace ++ evs }
      .release = w.calls .release := by
    rw [calls_mk, hev]; rfl
  simp [releaseResult, this]

/-- `os.RemoveAll` after one earlier call of the teardown. -/
theorem osRemoveAll_after (env : Env) (t : String) (w : World) (ds : List String)
    (bs : List (String × String × Bool)) (ms : List String) (e : Event)
    (he : e.op ≠ .removeAll) :
    osRemoveAll env t { dirs := ds, bindings := bs, mounted := ms, trace := w.trace ++ [e] } =
      { dirs := if env.removeAll (w.calls .removeAll) = none
          then ds.filter (fun d => d ≠ t) else ds,
        bindings := bs, mounted := ms, trace := w.trace ++ [e, .removeAll t] } := by
  rw [osRemoveAll_eq]
  have : World.calls { dirs := ds, bindings := bs, mounted := ms, trace := w.trace ++ [e] }
      .removeAll = w.calls .removeAll := by
    rw [calls_mk]
    simp [List.count_singleton, he]
  simp [this]

/-- `Unmount` of a bind when the unbind goes through or its error is passed
over. -/
theorem Unmount_bind_goes_on (env : Env) (lm : localMounter) (w : World) (m : Mount)
    (hm : lm.mounts = some [m]) (hb : m.Type_ = "bind" ∨ m.Type_ = "rbind")
    (ht : lm.target ≠ "")
    (hgo : env.removeFileBinding (w.calls .removeFileBinding) = none ∨
      ∃ e, env.removeFileBinding (w.calls .removeFileBinding) = some e ∧
        (e.IsErrno ERROR_INVALID_PARAMETER = true ∨ e.IsErrno ERROR_NOT_FOUND = true)) :
    lm.Unmount env w =
      ⟨releaseResult env lm.release w, { lm with target := "" },
        { dirs := if env.removeAll (w.calls .removeAll) = none
            then w.dirs.filter (fun d => d ≠ lm.target) else w.dirs,
          bindings := if env.removeFileBinding (w.calls .removeFileBinding) = none
            then w.bindings.filter (fun b => b.1 ≠ lm.target) else w.bindings,
          mounted := w.mounted,
          trace := w.trace ++ [.removeFileBinding lm.target, .removeAll lm.target] ++
            releaseEvents lm.release }⟩ := by
  rw [Unmount_single env lm w m hm, if_pos ht, if_pos hb]
  rcases hgo with hnone | ⟨e, he, h12⟩
  · rcases removeFileBinding_cases env lm.target w with ⟨e1, he1, _⟩ | ⟨_, hr⟩
    · rw [hnone] at he1; cases he1
    · rw [hr]
      simp only
      rw [osRemoveAll_after env lm.target w _ _ _ _ (by simp [Event.op]),
        releaseStep_after env _ w _ _ _ _ (by simp [Event.op])]
      simp [hnone]
  · rcases removeFileBinding_cases env lm.target w with ⟨e1, he1, hr⟩ | ⟨hok, _⟩
    · rw [he] at he1; cases he1
      rw [hr]
      have hc : (!e.IsErrno ERROR_INVALID_PARAMETER && !e.IsErrno ERROR_NOT_FOUND)
          = false := by
        rcases h12 with h | h <;> simp [h]
      simp only [hc, Bool.false_eq_true, if_false, World.emit]
      rw [osRemoveAll_after env lm.target w _ _ _ _ (by simp [Event.op]),
        releaseStep_after env _ w _ _ _ _ (by simp [Event.op])]
      simp [he]
    · rw [he] at hok; cases hok

/-- `Unmount` of a native mount when the unmount goes through. -/
theorem Unmount_native_goes_on (env : Env) (lm : localMounter) (w : World) (m : Mount)
    (hm : lm.mounts = some [m]) (hb : ¬ (m.Type_ = "bind" ∨ m.Type_ = "rbind"))
    (ht : lm.target ≠ "")
    (hu : env.mountUnmount (w.calls .nativeUnmount) = none) :
    lm.Unmount env w =
      ⟨releaseResult env lm.release w, { lm with target := "" },
        { dirs := if env.removeAll (w.calls .removeAll) = none
            then w.dirs.filter (fun d => d ≠ lm.target) else w.dirs,
          bindings := w.bindings,
          mounted := w.mounted.filter (fun t => t ≠ lm.target),
          trace := w.trace ++ [.nativeUnmount lm.target, .removeAll lm.target] ++
            releaseEvents lm.release }⟩ := by
  rw [Unmount_single env lm w m hm, if_pos ht, if_neg hb]
  rcases mountUnmount_cases env lm.target w with ⟨e1, he1, _⟩ | ⟨_, hok⟩
  · rw [hu] at he1; cases he1
  · rw [hok]
    simp only
    rw [osRemoveAll_after env lm.target w _ _ _ _ (by simp [Event.op]),
      releaseStep_after env _ w _ _ _ _ (by simp [Event.op])]

/-- Once `mounts` is not nil, no sequence of calls resolves again or changes
the stored descriptors and release function. -/
theorem run_keeps_populated (env : Env) (cs : List Call) :
    ∀ (lm : localMounter) (w : World), lm.mounts ≠ none →
      (run env cs (lm, w)).1.mounts = lm.mounts ∧
      (run env cs (lm, w)).1.release = lm.release ∧
      (run env cs (lm, w)).2.calls .resolve = w.calls .resolve := by
  induction cs with
  | nil => intro lm w _; simp [run]
  | cons c cs ih =>
    intro lm w hne
    cases c with
    | mount =>
      have hK := Mount_keeps env lm w hne
      have hC := (Mount_calls env lm w).1
      have h := ih (lm.Mount env w).lm (lm.Mount env w).world (by rw [hK.1]; exact hne)
      have hr : lm.resolveEvents.length = 0 := by simp [localMounter.resolveEvents, hne]
      simp only [run, step]
      rw [h.1, h.2.1, h.2.2, hK.1, hK.2, hC, hr]
      simp
    | unmount =>
      have hU := Unmount_frame env lm w
      have h := ih (lm.Unmount env w).lm (lm.Unmount env w).world (by rw [hU.1]; exact hne)
      simp only [run, step]
      rw [h.1, h.2.1, h.2.2, hU.1, hU.2.2.1, hU.2.2.2.1]
      simp

/-- `Mount` never writes `mountable`. -/
theorem Mount_mountable (env : Env) (lm : localMounter) (w : World) :
    (lm.Mount env w).lm.mountable = lm.mountable := by
  rcases Mount_cases env lm w with ⟨_, heq⟩ | ⟨_, e, _, heq⟩ | ⟨_, r, _, heq⟩
  · rw [heq]; exact (mountBody_fields env lm w).2.1
  · rw [heq]
  · rw [heq]; exact (mountBody_fields env _ _).2.1

/-- C13, as stated, fails: the unbind succeeds and the release function fails;
`Unmount` returns the release error and `target` is empty, but `os.RemoveAll`
has failed as well, its error is dropped, and the temporary directory has not
been removed. -/
theorem release_fails_and_directory_stays :
    releaseFailStuckEnv.removeFileBinding (boundWorld.calls .removeFileBinding) = none ∧
    boundRo.target ∈ boundWorld.dirs ∧
    (boundRo.Unmount releaseFailStuckEnv boundWorld).err = some accessDenied ∧
    (boundRo.Unmount releaseFailStuckEnv boundWorld).lm.target = "" ∧
    (boundRo.Unmount releaseFailStuckEnv boundWorld).world.trace = boundWorld.trace ++
      [.removeFileBinding boundRo.target, .removeAll boundRo.target, .release 7] ∧
    boundRo.target ∈ (boundRo.Unmount releaseFailStuckEnv boundWorld).world.dirs := by
  decide

/-- C13, amended: on an instance that holds exactly one descriptor and a release
function, let the unbind or unmount step succeed: `target` is empty, or
`RemoveFileBinding` returns nil or one of the two errors that are passed over,
or the native unmount returns nil.  Then `Unmount` returns exactly what the
release function returns, whatever that is, and `target` is empty afterwards.
Its external calls are the unbind or unmount and `os.RemoveAll(target)` (none
of the two when `target` was empty), then the release function, once.  The
directory `target` named is gone when `os.RemoveAll` returns nil, and is still
there when it fails. -/
theorem unmount_returns_release_result (env : Env) (lm : localMounter) (w : World) (m : Mount)
    (id : Nat) (hm : lm.mounts = some [m]) (hrel : lm.release = some id)
    (hstep : lm.target = "" ∨
      ((m.Type_ = "bind" ∨ m.Type_ = "rbind") ∧
        (env.removeFileBinding (w.calls .removeFileBinding) = none ∨
          ∃ e, env.removeFileBinding (w.calls .removeFileBinding) = some e ∧
            (e.IsErrno ERROR_INVALID_PARAMETER = true ∨ e.IsErrno ERROR_NOT_FOUND = true))) ∨
      (¬ (m.Type_ = "bind" ∨ m.Type_ = "rbind") ∧
        env.mountUnmount (w.calls .nativeUnmount) = none)) :
    (lm.Unmount env w).err = env.release (w.calls .release) ∧
    (lm.Unmount env w).lm.target = "" ∧
    (lm.Unmount env w).world.trace = w.trace ++ teardownEvents m lm.target ++ [.release id] ∧
    (lm.Unmount env w).world.dirs =
      (if lm.target ≠ "" ∧ env.removeAll (w.calls .removeAll) = none
        then w.dirs.filter (fun d => d ≠ lm.target) else w.dirs) ∧
    (lm.target ≠ "" → env.removeAll (w.calls .removeAll) = none →
      lm.target ∉ (lm.Unmount env w).world.dirs) ∧
    (lm.target ≠ "" → lm.target ∈ w.dirs →
      ∀ e, env.removeAll (w.calls .removeAll) = some e →
        lm.target ∈ (lm.Unmount env w).world.dirs) := by
  have hfil : lm.target ∉ w.dirs.filter (fun d => d ≠ lm.target) := by
    intro h
    have := (List.mem_filter.1 h).2
    simp at this
  by_cases ht : lm.target ≠ ""
  · have key : (lm.Unmount env w).err = env.release (w.calls .release) ∧
        (lm.Unmount env w).lm.target = "" ∧
        (lm.Unmount env w).world.trace
          = w.trace ++ teardownEvents m lm.target ++ [.release id] ∧
        (lm.Unmount env w).world.dirs =
          (if env.removeAll (w.calls .removeAll) = none
            then w.dirs.filter (fun d => d ≠ lm.target) else w.dirs) := by
      rcases hstep with h0 | ⟨hb, hr⟩ | ⟨hb, hu⟩
      · exact absurd h0 ht
      · rw [Unmount_bind_goes_on env lm w m hm hb ht hr]
        simp [releaseResult, hrel, releaseEvents, teardownEvents, ht, hb]
      · rw [Unmount_native_goes_on env lm w m hm hb ht hu]
        simp [releaseResult, hrel, releaseEvents, teardownEvents, ht, hb]
    obtain ⟨k1, k2, k3, k4⟩ := key
    refine ⟨k1, k2, k3, ?_, ?_, ?_⟩
    · rw [k4]; simp [ht]
    · intro _ hra; rw [k4, if_pos hra]; exact hfil
    · intro _ hmem e hra
      rw [k4, if_neg (by rw [hra]; simp)]
      exact hmem
  · have ht0 : lm.target = "" := by simpa using ht
    rw [Unmount_target_empty env lm w m hm ht0, releaseStep_eq, hrel]
    refine ⟨rfl, ht0, ?_, ?_, fun h => absurd ht0 h, fun h => absurd ht0 h⟩
    · simp [releaseEvents, teardownEvents, ht0]
    · simp [ht0]

/-- C13, amended, at a bound read-only bind whose release function fails while
the removal succeeds. -/
theorem unmount_returns_release_result_witness :
    releaseFailEnv.release (boundWorld.calls .release) = some accessDenied ∧
    releaseFailEnv.removeAll (boundWorld.calls .removeAll) = none ∧
    (boundRo.Unmount releaseFailEnv boundWorld).err
      = releaseFailEnv.release (boundWorld.calls .release) ∧
    (boundRo.Unmount releaseFailEnv boundWorld).lm.target = "" ∧
    (boundRo.Unmount releaseFailEnv boundWorld).world.trace
      = boundWorld.trace ++ teardownEvents roBind boundRo.target ++ [.release 7] ∧
    boundRo.target ∉ (boundRo.Unmount releaseFailEnv boundWorld).world.dirs :=
  ⟨rfl, rfl,
    (unmount_returns_release_result releaseFailEnv boundRo boundWorld roBind 7 rfl rfl
      (Or.inr (Or.inl ⟨by decide, Or.inl rfl⟩))).1,
    (unmount_returns_release_result releaseFailEnv boundRo boundWorld roBind 7 rfl rfl
      (Or.inr (Or.inl ⟨by decide, Or.inl rfl⟩))).2.1,
    (unmount_returns_release_result releaseFailEnv boundRo boundWorld roBind 7 rfl rfl
      (Or.inr (Or.inl ⟨by decide, Or.inl rfl⟩))).2.2.1,
    (unmount_returns_release_result releaseFailEnv boundRo boundWorld roBind 7 rfl rfl
      (Or.inr (Or.inl ⟨by decide, Or.inl rfl⟩))).2.2.2.2.1 (by decide) rfl⟩

/-- C10, as stated, fails: when the resolution fails, a second `Mount` on the
same instance calls the provider again. -/
theorem failed_resolution_is_repeated :
    (run failingEnv [.mount, .mount] (fresh, World.empty)).2.calls .resolve = 2 ∧
    (run failingEnv [.mount, .mount] (fresh, World.empty)).2.trace = [.resolve, .resolve] ∧
    ¬ ((run failingEnv [.mount, .mount] (fresh, World.empty)).2.calls .resolve ≤ 1) := by
  decide

/-- C10, amended.  Once `mounts` is not nil, no sequence of `Mount` and
`Unmount` calls on the instance calls the provider again, and the stored
descriptors and release function stay as they are.  While `mounts` is nil,
every `Mount` on an instance with a provider calls the provider exactly once.
A resolution that fails leaves the instance as it was; one that yields a nil
slice stores its release function and nothing else.  Whenever `mounts` is
still nil after such a `Mount`, the next `Mount` calls the provider again. -/
theorem resolution_until_populated (env : Env) :
    (∀ (cs : List Call) (lm : localMounter) (w : World), lm.mounts ≠ none →
      (run env cs (lm, w)).1.mounts = lm.mounts ∧
      (run env cs (lm, w)).1.release = lm.release ∧
      (run env cs (lm, w)).2.calls .resolve = w.calls .resolve) ∧
    (∀ (lm : localMounter) (w : World), lm.mounts = none → lm.mountable = true →
      (lm.Mount env w).world.calls .resolve = w.calls .resolve + 1) ∧
    (∀ (lm : localMounter) (w : World) (e : Err), lm.mounts = none → lm.mountable = true →
      env.mountableMount (w.calls .resolve) = .error e →
      (lm.Mount env w).lm = lm) ∧
    (∀ (lm : localMounter) (w : World) (r : Resolved), lm.mounts = none →
      lm.mountable = true → env.mountableMount (w.calls .resolve) = .ok r →
      r.mounts = none →
      (lm.Mount env w).lm = { lm with release := r.release }) ∧
    (∀ (lm : localMounter) (w : World), lm.mounts = none → lm.mountable = true →
      (lm.Mount env w).lm.mounts = none →
      ((lm.Mount env w).lm.Mount env (lm.Mount env w).world).world.calls .resolve
        = w.calls .resolve + 2) := by
  have hone : ∀ (lm : localMounter) (w : World), lm.mounts = none → lm.mountable = true →
      (lm.Mount env w).world.calls .resolve = w.calls .resolve + 1 := by
    intro lm w hnil hprov
    rw [(Mount_calls env lm w).1]
    simp [localMounter.resolveEvents, hnil, hprov]
  refine ⟨fun cs lm w h => run_keeps_populated env cs lm w h, hone, ?_, ?_, ?_⟩
  · intro lm w e hnil hprov hres
    simp [localMounter.Mount, hnil, hprov, callMountable, hres]
  · intro lm w r hnil hprov hres hr
    simp only [localMounter.Mount, hnil, hprov, callMountable, hres, and_self, if_true]
    rw [mountBody_of_length_ne_one _ _ _ (by simp [localMounter.len, hr])]
    simp [hr, ← hnil]
  · intro lm w hnil hprov hstay
    rw [hone _ _ hstay (by rw [Mount_mountable]; exact hprov), hone lm w hnil hprov]

/-- C10, amended, at the instance a first successful `Mount` leaves behind, at
a fresh instance whose provider fails, and at one whose provider answers with
a nil slice and the release function 7. -/
theorem resolution_until_populated_witness :
    (fresh.Mount roEnv World.empty).lm.mounts ≠ none ∧
    (run roEnv [.unmount, .mount, .unmount]
      ((fresh.Mount roEnv World.empty).lm, (fresh.Mount roEnv World.empty).world)).2.calls
        .resolve = (fresh.Mount roEnv World.empty).world.calls .resolve ∧
    (fresh.Mount failingEnv World.empty).lm = fresh ∧
    (fresh.Mount nilEnv World.empty).lm = { fresh with release := some 7 } ∧
    ((fresh.Mount nilEnv World.empty).lm.Mount nilEnv
      (fresh.Mount nilEnv World.empty).world).world.calls .resolve
        = World.empty.calls .resolve + 2 :=
  ⟨by decide,
    ((resolution_until_populated roEnv).1 [.unmount, .mount, .unmount]
      (fresh.Mount roEnv World.empty).lm (fresh.Mount roEnv World.empty).world
      (by decide)).2.2,
    (resolution_until_populated failingEnv).2.2.1 fresh World.empty accessDenied rfl rfl rfl,
    (resolution_until_populated nilEnv).2.2.2.1 fresh World.empty ⟨none, some 7⟩
      rfl rfl rfl rfl,
    (resolution_until_populated nilEnv).2.2.2.2 fresh World.empty rfl rfl (by decide)⟩

end Snapshot

namespace Instructions

open Snapshot (Err)

/-! ## ParseDevice -/

/-- A field with an unknown key makes the loop fail, wherever it stands. -/
theorem parseFields_unknown_key (lib : Lib) (n : Nat) (f k v : String)
    (hcut : stringsCut f '=' = (k, v, true))
    (hk1 : lib.toLower k ≠ "name") (hk2 : lib.toLower k ≠ "required") :
    ∀ (l : List String) (p i : Nat) (d : Device), l[p]? = some f →
      (i + p = 0 → lib.parseQualifiedName f ≠ none) →
      ∃ e, parseFields lib n i l d = .error e := by
  intro l
  induction l with
  | nil => intro p i d h; simp at h
  | cons field rest ih =>
    intro p i d hp hfirst
    cases p with
    | zero =>
      simp only [List.getElem?_cons_zero, Option.some.injEq] at hp
      subst hp
      have hbody : ∃ e, parseField lib n i field d = .error e := by
        unfold parseField
        by_cases hi : i = 0
        · have hq := hfirst (by omega)
          simp [hi, hq, hcut, hk1, hk2]
        · simp [hi, hcut, hk1, hk2]
      obtain ⟨e, he⟩ := hbody
      exact ⟨e, by rw [parseFields, he]⟩
    | succ q =>
      simp only [List.getElem?_cons_succ] at hp
      rw [parseFields]
      cases hb : parseField lib n i field d with
      | error e => exact ⟨e, rfl⟩
      | ok d1 => exact ih q (i + 1) d1 hp (by omega)

/-- A later field that is a required field sets `Required` and nothing else. -/
theorem parseField_required (lib : Lib) (n i : Nat) (f : String) (d : Device) (b : Bool)
    (hi : i ≠ 0) (hf : requiredField lib f = some b) :
    parseField lib n i f d = .ok { d with Required := b } := by
  unfold requiredField at hf
  unfold parseField
  rcases hc : stringsCut f '=' with ⟨key, value, ok⟩
  rw [hc] at hf
  cases ok with
  | false =>
    simp only at hf
    by_cases hk : lib.toLower key = "required"
    · simp only [hk, if_true, Option.some.injEq] at hf
      subst hf
      simp [hi, hk]
    · simp [hk] at hf
  | true =>
    simp only at hf
    by_cases hk : lib.toLower key = "required"
    · have hn : lib.toLower key ≠ "name" := by rw [hk]; decide
      simp only [hk, if_true] at hf
      cases hb : strconvParseBool value with
      | error e => rw [hb] at hf; simp at hf
      | ok b1 =>
        rw [hb] at hf
        simp only [Option.some.injEq] at hf
        subst hf
        simp [hi, hk, hb]
    · simp [hk] at hf

/-- Required fields after the first keep the name and leave `Required` at the
value of the last of them. -/
theorem parseFields_required (lib : Lib) (n : Nat) :
    ∀ (rest : List String) (i : Nat) (d : Device), i ≠ 0 →
      (∀ f ∈ rest, (requiredField lib f).isSome = true) →
      parseFields lib n i rest d = .ok ⟨d.Name, lastRequired lib rest d.Required⟩ := by
  intro rest
  induction rest with
  | nil => intro i d _ _; simp [parseFields, lastRequired]
  | cons f fs ih =>
    intro i d hi hall
    have hf := hall f (List.mem_cons_self _ _)
    have hfs : ∀ g ∈ fs, (requiredField lib g).isSome = true :=
      fun g hg => hall g (List.mem_cons_of_mem _ hg)
    obtain ⟨b, hb⟩ := Option.isSome_iff_exists.1 hf
    rw [parseFields, parseField_required lib n i f d b hi hb]
    simp only
    rw [ih (i + 1) _ (Nat.succ_ne_zero i) hfs]
    simp [lastRequired, hb]

/-- C15: when the CSV fields of the input include a field `key=value` whose
lower-cased key is neither `name` nor `required`, and that field is not a first
field that is a qualified name, `ParseDevice` returns an error and no device. -/
theorem unknown_key_rejected (lib : Lib) (val : String) (fields : List String) (j : Nat)
    (f k v : String)
    (hcsv : lib.csvFields val = .ok fields) (hj : fields[j]? = some f)
    (hcut : stringsCut f '=' = (k, v, true))
    (hk1 : lib.toLower k ≠ "name") (hk2 : lib.toLower k ≠ "required")
    (hfirst : j = 0 → lib.parseQualifiedName f ≠ none) :
    ∃ e, ParseDevice lib val = .error e := by
  obtain ⟨e, he⟩ := parseFields_unknown_key lib fields.length f k v hcut hk1 hk2 fields j 0
    { Name := "", Required := false } hj (by simpa using hfirst)
  exact ⟨e, by simp [ParseDevice, hcsv, he]⟩

/-- C15 at a qualified name followed by the unknown key `mode`. -/
theorem unknown_key_rejected_witness :
    sampleLib.csvFields "vendor.com/gpu=all,mode=rw" = .ok ["vendor.com/gpu=all", "mode=rw"] ∧
    stringsCut "mode=rw" '=' = ("mode", "rw", true) ∧
    ∃ e, ParseDevice sampleLib "vendor.com/gpu=all,mode=rw" = .error e :=
  ⟨rfl, rfl,
    unknown_key_rejected sampleLib "vendor.com/gpu=all,mode=rw" ["vendor.com/gpu=all", "mode=rw"]
      1 "mode=rw" "mode" "rw" rfl rfl rfl (by decide) (by decide) (by decide)⟩

/-- C16: when the first CSV field `f0` is a qualified name and every later
field is the bare token `required` or `required=<b>` with `b` accepted by
`strconv.ParseBool`, keys compared after lower-casing, `ParseDevice` succeeds
with `Name = f0` and `Required` the value of the last such field, false when
there is none. -/
theorem qualified_name_then_required (lib : Lib) (val f0 : String) (rest : List String)
    (hcsv : lib.csvFields val = .ok (f0 :: rest))
    (hq : lib.parseQualifiedName f0 = none)
    (hreq : ∀ f ∈ rest, (requiredField lib f).isSome = true) :
    ParseDevice lib val = .ok ⟨f0, lastRequired lib rest false⟩ := by
  have h0 : parseField lib (f0 :: rest).length 0 f0 { Name := "", Required := false }
      = .ok { Name := f0, Required := false } := by
    simp [parseField, hq]
  unfold ParseDevice
  rw [hcsv]
  simp only
  rw [parseFields, h0]
  simp only
  rw [parseFields_required lib _ rest 1 _ (by decide) hreq]
  simp [hq]

/-- C16 at a qualified name followed by `Required=F` and a bare `REQUIRED`. -/
theorem qualified_name_then_required_witness :
    sampleLib.csvFields "vendor.com/gpu=all,Required=F,REQUIRED"
      = .ok ["vendor.com/gpu=all", "Required=F", "REQUIRED"] ∧
    requiredField sampleLib "Required=F" = some false ∧
    requiredField sampleLib "REQUIRED" = some true ∧
    ParseDevice sampleLib "vendor.com/gpu=all,Required=F,REQUIRED"
      = .ok ⟨"vendor.com/gpu=all", true⟩ :=
  ⟨rfl, by decide, by decide,
    qualified_name_then_required sampleLib "vendor.com/gpu=all,Required=F,REQUIRED"
      "vendor.com/gpu=all" ["Required=F", "REQUIRED"] rfl rfl (by decide)⟩

end Instructions
